import Mathlib

/-!
# Intel Quark Ethernet bring-up (`device/eth/eth_q_init.c`)

A shallow embedding of `eth_q_phy_read`, `eth_q_phy_write`, `eth_q_phy_reset`
and `eth_q_init`, and the properties of the controller bring-up proved on it.

* The memory-mapped register block is volatile: every read of a register
  consumes the next value of that register's response stream, so a theorem
  quantified over the streams holds for every behaviour of the hardware.
* Every access to the device, every call of an external routine and every
  store into descriptor memory is appended to a trace (newest event first).
* Loops that poll the hardware take a `fuel` bound on their iterations; `none`
  means that the loop was still running when the fuel ran out.
* Constants and structure layouts that come from headers (`xinu.h` and what it
  includes) are fields of `Cfg`.
* Memory is an array of bytes; members of descriptors are stored and loaded
  least significant byte first, and addresses are 32 bits wide.
-/

namespace XinuEth

set_option autoImplicit false

/-! ## Data model -/

/-- Members of `struct eth_q_csreg` that the driver reads or writes. -/
inductive Reg
  | bmr | omr | gmiiar | gmiidr | maccr | mmccr
  | macaddr0l | macaddr0h | ier | tdla | rdla
  deriving DecidableEq, Repr

/-- The two `kprintf` messages of the file. -/
inductive Msg
  | linkUp | macAddress
  deriving DecidableEq, Repr

/-- One observable action of the driver. -/
inductive Event
  /-- A read of register `r` that returned `v`. -/
  | rd (r : Reg) (v : Nat)
  /-- The assignment `csrptr->r = v`. -/
  | wr (r : Reg) (v : Nat)
  /-- The statement `csrptr->r |= mask`; `old` is the value that was read. -/
  | orw (r : Reg) (mask old : Nat)
  /-- The call `delay(us)`. -/
  | delay (us : Nat)
  /-- The call `pci_write_config_word(pcidev, off, val)`. -/
  | pci (off val : Nat)
  /-- The call `set_evec(irq, handler)`. -/
  | evec (irq handler : Nat)
  /-- A call of `kprintf`. -/
  | kprintf (m : Msg)
  /-- The call `get_quark_pdat_entry_data_by_id(QUARK_MAC1_ID, ..)`. -/
  | pdat
  /-- The call `getmem(nbytes)` and the address it returned. -/
  | getmem (nbytes ret : Nat)
  /-- The call `memset(addr, c, nbytes)`. -/
  | memset (addr c nbytes : Nat)
  /-- A store of the `width` low bytes of `val` at `addr`. -/
  | store (addr width val : Nat)
  /-- The call `semcreate(count)` and the identifier it returned. -/
  | semcreate (count : Nat) (ret : Int)
  deriving DecidableEq, Repr

/-- Position and size in bytes of a member inside a descriptor structure. -/
structure Field where
  off : Nat
  width : Nat
  deriving DecidableEq, Repr

/-- Constants, ring sizes and structure layouts taken from the headers. -/
structure Cfg where
  OK : Int
  SYSERR : Int
  ETH_QUARK_MAX_RETRIES : Nat
  ETH_QUARK_INIT_DELAY : Nat
  ETH_QUARK_GMIIAR_GB : Nat
  ETH_QUARK_GMIIAR_GW : Nat
  ETH_QUARK_GMIIAR_CR : Nat
  ETH_QUARK_MACCR_RMIISPD100 : Nat
  ETH_QUARK_MACCR_DM : Nat
  ETH_QUARK_MACCR_TE : Nat
  ETH_QUARK_MACCR_RE : Nat
  ETH_QUARK_MMC_CNTFREEZ : Nat
  ETH_QUARK_MMC_CNTRST : Nat
  ETH_QUARK_IER_NIE : Nat
  ETH_QUARK_IER_TIE : Nat
  ETH_QUARK_IER_RIE : Nat
  ETH_QUARK_OMR_ST : Nat
  ETH_QUARK_OMR_SR : Nat
  ETH_QUARK_RDST_OWN : Nat
  ETH_QUARK_RDCTL1_RER : Nat
  ETH_QUARK_TX_RING_SIZE : Nat
  ETH_QUARK_RX_RING_SIZE : Nat
  /-- Value of `sizeof(struct netpacket)`. -/
  sizeof_netpacket : Nat
  /-- Value of `sizeof(struct eth_q_tx_desc)`. -/
  sizeof_tx_desc : Nat
  /-- Member `buffer1` of `struct eth_q_tx_desc`. -/
  tx_buffer1 : Field
  /-- Value of `sizeof(struct eth_q_rx_desc)`. -/
  sizeof_rx_desc : Nat
  /-- Member `status` of `struct eth_q_rx_desc`. -/
  rx_status : Field
  /-- Member `buf1size` of `struct eth_q_rx_desc`. -/
  rx_buf1size : Field
  /-- Member `buffer1` of `struct eth_q_rx_desc`. -/
  rx_buffer1 : Field

/-- The device seen through `csrptr`: per register the stream of values that
successive reads return, how many reads each register has had, and the trace. -/
structure Dev where
  inp : Reg → Nat → Nat
  pos : Reg → Nat
  trace : List Event

/-- Value that the next read of register `r` returns. -/
def Dev.val (d : Dev) (r : Reg) : Nat := d.inp r (d.pos r)

/-- Counter of reads after one more read of `r`. -/
def Dev.bump (d : Dev) (r : Reg) : Reg → Nat :=
  fun x => if x = r then d.pos r + 1 else d.pos x

/-- Device after a read of register `r` (which returned `d.val r`). -/
def Dev.rd (d : Dev) (r : Reg) : Dev :=
  { d with pos := d.bump r, trace := Event.rd r (d.val r) :: d.trace }

/-- Device after `csrptr->r = v`. -/
def Dev.wr (d : Dev) (r : Reg) (v : Nat) : Dev :=
  { d with trace := Event.wr r v :: d.trace }

/-- Device after `csrptr->r |= mask`: one read of `r`, then the write back. -/
def Dev.orw (d : Dev) (r : Reg) (mask : Nat) : Dev :=
  { d with pos := d.bump r, trace := Event.orw r mask (d.val r) :: d.trace }

/-- Device after an action that does not touch the registers. -/
def Dev.log (d : Dev) (e : Event) : Dev :=
  { d with trace := e :: d.trace }

/-! ## Register access layer -/

/-- The loop `while(csrptr->gmiiar & ETH_QUARK_GMIIAR_GB);` that opens
`eth_q_phy_read` and `eth_q_phy_write` (lines 19 and 54). -/
def mii_ready (cfg : Cfg) : Nat → Dev → Option Dev
  | 0, _ => none
  | n + 1, d =>
    if d.val .gmiiar &&& cfg.ETH_QUARK_GMIIAR_GB ≠ 0 then
      mii_ready cfg n (d.rd .gmiiar)
    else some (d.rd .gmiiar)

/-- The bounded polling loop
`while(csrptr->r & mask) { delay(ETH_QUARK_INIT_DELAY); if((++retries) > ETH_QUARK_MAX_RETRIES) return ..; }`
of lines 30-34, 70-74 and 151-155.  The flag of the result tells how the loop
was left: `true` through the `return` in its body, `false` because the
condition read as zero.  `retries` is the current value of the counter, a
`uint32` that is compared with the bound after every increment and so stays
below `ETH_QUARK_MAX_RETRIES + 2`. -/
def wait_clear (cfg : Cfg) (r : Reg) (mask : Nat) : Nat → Nat → Dev → Option (Bool × Dev)
  | 0, _, _ => none
  | n + 1, retries, d =>
    if d.val r &&& mask ≠ 0 then
      if retries + 1 > cfg.ETH_QUARK_MAX_RETRIES then
        some (true, (d.rd r).log (.delay cfg.ETH_QUARK_INIT_DELAY))
      else
        wait_clear cfg r mask n (retries + 1) ((d.rd r).log (.delay cfg.ETH_QUARK_INIT_DELAY))
    else some (false, d.rd r)

/-- Request word written to `gmiiar` by `eth_q_phy_read` (lines 22-26). -/
def read_request (cfg : Cfg) (regnum : Nat) : Nat :=
  ((1 <<< 11) ||| (regnum <<< 6) ||| cfg.ETH_QUARK_GMIIAR_CR
    ||| cfg.ETH_QUARK_GMIIAR_GB) % 2 ^ 32

/-- Request word written to `gmiiar` by `eth_q_phy_write` (lines 61-66). -/
def write_request (cfg : Cfg) (regnum : Nat) : Nat :=
  ((1 <<< 11) ||| (regnum <<< 6) ||| cfg.ETH_QUARK_GMIIAR_CR
    ||| cfg.ETH_QUARK_GMIIAR_GW ||| cfg.ETH_QUARK_GMIIAR_GB) % 2 ^ 32

/-- Embedding of `eth_q_phy_read`: the returned `uint16` and the device after the call. -/
def eth_q_phy_read (cfg : Cfg) (fuel : Nat) (d : Dev) (regnum : Nat) : Option (Nat × Dev) :=
  match mii_ready cfg fuel d with
  | none => none
  | some d1 =>
    match wait_clear cfg .gmiiar cfg.ETH_QUARK_GMIIAR_GB fuel 0
        (d1.wr .gmiiar (read_request cfg regnum)) with
    | none => none
    | some (true, d2) => some (0, d2)
    | some (false, d2) => some (d2.val .gmiidr % 2 ^ 16, d2.rd .gmiidr)

/-- Embedding of `eth_q_phy_write`; the function returns `void`. -/
def eth_q_phy_write (cfg : Cfg) (fuel : Nat) (d : Dev) (regnum value : Nat) : Option Dev :=
  match mii_ready cfg fuel d with
  | none => none
  | some d1 =>
    match wait_clear cfg .gmiiar cfg.ETH_QUARK_GMIIAR_GB fuel 0
        ((d1.wr .gmiidr (value % 2 ^ 16)).wr .gmiiar (write_request cfg regnum)) with
    | none => none
    | some (_, d2) => some d2

/-! ## Link manager -/

/-- The loop of lines 95-100 of `eth_q_phy_reset`:
`while(eth_q_phy_read(csrptr, 0) & 0x8000) { delay(..); if((++retries) > ETH_QUARK_MAX_RETRIES) return SYSERR; }`.
The flag is `true` when the loop was left through `return SYSERR`. -/
def phy_reset_wait (cfg : Cfg) (fuel : Nat) : Nat → Nat → Dev → Option (Bool × Dev)
  | 0, _, _ => none
  | n + 1, retries, d =>
    match eth_q_phy_read cfg fuel d 0 with
    | none => none
    | some (v, d1) =>
      if v &&& 0x8000 ≠ 0 then
        if retries + 1 > cfg.ETH_QUARK_MAX_RETRIES then
          some (true, d1.log (.delay cfg.ETH_QUARK_INIT_DELAY))
        else
          phy_reset_wait cfg fuel n (retries + 1) (d1.log (.delay cfg.ETH_QUARK_INIT_DELAY))
      else some (false, d1)

/-- The loops `while((eth_q_phy_read(csrptr, 1) & mask) == 0);` of lines 107 and 110. -/
def phy_wait_bit (cfg : Cfg) (fuel : Nat) (mask : Nat) : Nat → Dev → Option Dev
  | 0, _ => none
  | n + 1, d =>
    match eth_q_phy_read cfg fuel d 1 with
    | none => none
    | some (v, d1) =>
      if v &&& mask = 0 then phy_wait_bit cfg fuel mask n d1 else some d1

/-- Lines 102-118 of `eth_q_phy_reset`: the status read, the two waits of the
auto-negotiation branch, the message and `return OK`. -/
def phy_link_up (cfg : Cfg) (fuel : Nat) (d : Dev) : Option (Int × Dev) :=
  match eth_q_phy_read cfg fuel d 1 with
  | none => none
  | some (value, d1) =>
    if value &&& 0x0008 ≠ 0 then
      match phy_wait_bit cfg fuel 0x0020 fuel d1 with
      | none => none
      | some d2 =>
        match phy_wait_bit cfg fuel 0x0004 fuel d2 with
        | none => none
        | some d3 => some (cfg.OK, d3.log (.kprintf .linkUp))
    else some (cfg.OK, d1.log (.kprintf .linkUp))

/-- Lines 88-100 of `eth_q_phy_reset`: the control register is read, written
back with bit 15 set, and polled until that bit reads clear.  The flag is
`true` when the polling loop was left through `return SYSERR`. -/
def phy_reset_request (cfg : Cfg) (fuel : Nat) (d : Dev) : Option (Bool × Dev) :=
  match eth_q_phy_read cfg fuel d 0 with
  | none => none
  | some (value, d1) =>
    match eth_q_phy_write cfg fuel d1 0 (value ||| 0x8000) with
    | none => none
    | some d2 => phy_reset_wait cfg fuel fuel 0 d2

/-- Embedding of `eth_q_phy_reset`. -/
def eth_q_phy_reset (cfg : Cfg) (fuel : Nat) (d : Dev) : Option (Int × Dev) :=
  match phy_reset_request cfg fuel d with
  | none => none
  | some (true, d3) => some (cfg.SYSERR, d3)
  | some (false, d3) => phy_link_up cfg fuel d3

/-! ## Memory, allocator and the per-device record -/

/-- Conversion to `uint32`. -/
def u32 (n : Nat) : Nat := n % 2 ^ 32

/-- The cast `(int)` of a 32-bit value, as in `(int)temptr == SYSERR`. -/
def int_of (n : Nat) : Int :=
  if n % 2 ^ 32 < 2 ^ 31 then (n % 2 ^ 32 : Nat) else ((n % 2 ^ 32 : Nat) : Int) - 2 ^ 32

/-- The rounding `((uint32)p + 3) & (~3)` of lines 204, 212, 242 and 252. -/
def align4 (p : Nat) : Nat := u32 (p + 3) &&& 0xFFFFFFFC

/-- Byte memory after `memset(a, c, n)`. -/
def mem_set (m : Nat → Nat) (a c n : Nat) : Nat → Nat :=
  fun x => if a ≤ x ∧ x < a + n then c % 256 else m x

/-- Byte memory after a little-endian store of the `width` low bytes of `v` at `a`. -/
def mem_store (m : Nat → Nat) (a width v : Nat) : Nat → Nat :=
  fun x => if a ≤ x ∧ x < a + width then v / 256 ^ (x - a) % 256 else m x

/-- Little-endian load of `width` bytes at `a`. -/
def mem_load (m : Nat → Nat) (a : Nat) : Nat → Nat
  | 0 => 0
  | k + 1 => m a % 256 + 256 * mem_load m (a + 1) k

/-- Members of `struct ether` (the entry of `ethertab`) that `eth_q_init` sets. -/
structure Ether where
  csr : Nat
  devAddress : Nat → Nat
  txRingSize : Nat
  txRing : Nat
  txBufs : Nat
  osem : Int
  rxRingSize : Nat
  rxRing : Nat
  rxBufs : Nat
  isem : Int

/-- Members of `struct dentry` that `eth_q_init` reads. -/
structure Dentry where
  dvcsr : Nat
  dvirq : Nat
  dvintr : Nat

/-- Everything `eth_q_init` acts on: the device, byte-addressed memory, the
results that successive calls of `getmem` and `semcreate` return, the hardware
address held by the platform data, and the entry of `ethertab`. -/
structure World where
  dev : Dev
  mem : Nat → Nat
  getmem_ret : Nat → Nat
  getmem_calls : Nat
  semcreate_ret : Nat → Int
  semcreate_calls : Nat
  pdat_mac : Nat → Nat
  eth : Ether

/-- Append an event to the trace. -/
def World.emit (w : World) (e : Event) : World :=
  { w with dev := w.dev.log e }

/-- Address that the next call of `getmem` returns. -/
def World.getmem_val (w : World) : Nat := u32 (w.getmem_ret w.getmem_calls)

/-- World after the call `getmem(nbytes)`. -/
def World.getmem (w : World) (nbytes : Nat) : World :=
  { w with getmem_calls := w.getmem_calls + 1,
           dev := w.dev.log (.getmem nbytes w.getmem_val) }

/-- Identifier that the next call of `semcreate` returns. -/
def World.semcreate_val (w : World) : Int := w.semcreate_ret w.semcreate_calls

/-- World after the call `semcreate(count)`. -/
def World.semcreate (w : World) (count : Nat) : World :=
  { w with semcreate_calls := w.semcreate_calls + 1,
           dev := w.dev.log (.semcreate count w.semcreate_val) }

/-- World after `memset(a, c, n)`. -/
def World.memset (w : World) (a c n : Nat) : World :=
  { w with mem := mem_set w.mem a c n, dev := w.dev.log (.memset a c n) }

/-- World after a store of `width` bytes of `v` at `a`. -/
def World.store (w : World) (a width v : Nat) : World :=
  { w with mem := mem_store w.mem a width v, dev := w.dev.log (.store a width v) }

/-- World after `csrptr->r = v`. -/
def World.wr (w : World) (r : Reg) (v : Nat) : World :=
  { w with dev := w.dev.wr r v }

/-- World after `csrptr->r |= mask`. -/
def World.orw (w : World) (r : Reg) (mask : Nat) : World :=
  { w with dev := w.dev.orw r mask }

/-- Address of member `f` of element `i` of a descriptor array at `base`
(pointer arithmetic inside an allocated block). -/
def field_addr (base size i : Nat) (f : Field) : Nat := base + i * size + f.off

/-! ## Controller bootstrap and descriptor rings -/

/-- Outcome of a part of `eth_q_init`: fall through to the next statement, or
`return SYSERR`. -/
inductive Step
  | next (w : World)
  | fail (w : World)

/-- Lines 165-190 of `eth_q_init`: interrupt vector, MAC mode, MMC counters and
the hardware address. -/
def init_mac (cfg : Cfg) (devptr : Dentry) (w : World) : World :=
  let w1 := w.emit (.evec devptr.dvirq (u32 devptr.dvintr))
  let w2 := w1.orw .maccr (cfg.ETH_QUARK_MACCR_RMIISPD100 ||| cfg.ETH_QUARK_MACCR_DM)
  let w3 := w2.orw .maccr 0x30000000
  let w4 := w3.orw .mmccr (cfg.ETH_QUARK_MMC_CNTFREEZ ||| cfg.ETH_QUARK_MMC_CNTRST)
  let w5 := { w4.emit .pdat with eth := { w4.eth with devAddress := fun k => w4.pdat_mac k % 256 } }
  let w6 := w5.emit (.kprintf .macAddress)
  let w7 := w6.wr .macaddr0l (w6.eth.devAddress 0 + 256 * w6.eth.devAddress 1
      + 65536 * w6.eth.devAddress 2 + 16777216 * w6.eth.devAddress 3)
  w7.wr .macaddr0h ((w7.eth.devAddress 4 + 256 * w7.eth.devAddress 5) ||| 0x80000000)

/-- The loop of lines 219-221, `tx_descs[i].buffer1 = (uint32)(pktptr + i);`
for `i` from 0 to `n - 1`. -/
def tx_ring_fill (cfg : Cfg) (tx_descs pktptr n : Nat) (w : World) : World :=
  (List.range n).foldl (fun w i =>
    w.store (field_addr tx_descs cfg.sizeof_tx_desc i cfg.tx_buffer1) cfg.tx_buffer1.width
      (u32 (pktptr + i * cfg.sizeof_netpacket))) w

/-- Lines 192-227 of `eth_q_init`: the transmit ring, its buffers and `osem`. -/
def init_tx_ring (cfg : Cfg) (w : World) : Step :=
  let w1 := { w with eth := { w.eth with txRingSize := cfg.ETH_QUARK_TX_RING_SIZE } }
  let temptr := w1.getmem_val
  let w2 := w1.getmem (u32 (cfg.sizeof_tx_desc * (w1.eth.txRingSize + 1)))
  if int_of temptr = cfg.SYSERR then .fail w2 else
  let w3 := w2.memset temptr 0 (u32 (cfg.sizeof_tx_desc * (w2.eth.txRingSize + 1)))
  let w4 := { w3 with eth := { w3.eth with txRing := align4 temptr } }
  let w5 := { w4.getmem (u32 (cfg.sizeof_netpacket * (w4.eth.txRingSize + 1))) with
              eth := { w4.eth with txBufs := w4.getmem_val } }
  if int_of w5.eth.txBufs = cfg.SYSERR then .fail w5 else
  let w6 := { w5 with eth := { w5.eth with txBufs := align4 w5.eth.txBufs } }
  let w7 := tx_ring_fill cfg w6.eth.txRing w6.eth.txBufs w6.eth.txRingSize w6
  let w8 := { w7.semcreate w7.eth.txRingSize with
              eth := { w7.eth with osem := w7.semcreate_val } }
  if w8.eth.osem = cfg.SYSERR then .fail w8 else .next w8

/-- Lines 229-258 of `eth_q_init`: allocation of the receive ring and its buffers. -/
def init_rx_alloc (cfg : Cfg) (w : World) : Step :=
  let w1 := { w with eth := { w.eth with rxRingSize := cfg.ETH_QUARK_RX_RING_SIZE } }
  let temptr := w1.getmem_val
  let w2 := w1.getmem (u32 (cfg.sizeof_rx_desc * (w1.eth.rxRingSize + 1)))
  if int_of temptr = cfg.SYSERR then .fail w2 else
  let w3 := w2.memset temptr 0 (u32 (cfg.sizeof_rx_desc * (w2.eth.rxRingSize + 1)))
  let w4 := { w3 with eth := { w3.eth with rxRing := align4 temptr } }
  let w5 := { w4.getmem (u32 (cfg.sizeof_netpacket * (w4.eth.rxRingSize + 1))) with
              eth := { w4.eth with rxBufs := w4.getmem_val } }
  if int_of w5.eth.rxBufs = cfg.SYSERR then .fail w5 else
  .next { w5 with eth := { w5.eth with rxBufs := align4 w5.eth.rxBufs } }

/-- The loop of lines 261-266: ownership, buffer size and buffer pointer of
receive descriptor `i`. -/
def rx_ring_fill (cfg : Cfg) (rx_descs pktptr n : Nat) (w : World) : World :=
  (List.range n).foldl (fun w i =>
    ((w.store (field_addr rx_descs cfg.sizeof_rx_desc i cfg.rx_status) cfg.rx_status.width
        cfg.ETH_QUARK_RDST_OWN).store
      (field_addr rx_descs cfg.sizeof_rx_desc i cfg.rx_buf1size) cfg.rx_buf1size.width
        (u32 cfg.sizeof_netpacket)).store
      (field_addr rx_descs cfg.sizeof_rx_desc i cfg.rx_buffer1) cfg.rx_buffer1.width
        (u32 (pktptr + i * cfg.sizeof_netpacket))) w

/-- Lines 260-269 of `eth_q_init`: the receive descriptors and the end-of-ring
flag `rx_descs[ethptr->rxRingSize-1].buf1size |= ETH_QUARK_RDCTL1_RER`.  The
ring size is a positive constant, so the index is `rxRingSize - 1`. -/
def init_rx_descs (cfg : Cfg) (w : World) : World :=
  let w1 := rx_ring_fill cfg w.eth.rxRing w.eth.rxBufs w.eth.rxRingSize w
  let last := field_addr w1.eth.rxRing cfg.sizeof_rx_desc (w1.eth.rxRingSize - 1) cfg.rx_buf1size
  w1.store last cfg.rx_buf1size.width
    (mem_load w1.mem last cfg.rx_buf1size.width ||| cfg.ETH_QUARK_RDCTL1_RER)

/-- Lines 271-294 of `eth_q_init`: `isem`, interrupt enables, ring base
addresses, MAC enables and the start of the DMA processes. -/
def init_start (cfg : Cfg) (w : World) : Int × World :=
  let w1 := { w.semcreate 0 with eth := { w.eth with isem := w.semcreate_val } }
  if w1.eth.isem = cfg.SYSERR then (cfg.SYSERR, w1) else
  let w2 := w1.wr .ier (cfg.ETH_QUARK_IER_NIE ||| cfg.ETH_QUARK_IER_TIE ||| cfg.ETH_QUARK_IER_RIE)
  let w3 := w2.wr .tdla (u32 w2.eth.txRing)
  let w4 := w3.wr .rdla (u32 w3.eth.rxRing)
  let w5 := w4.orw .maccr (cfg.ETH_QUARK_MACCR_TE ||| cfg.ETH_QUARK_MACCR_RE)
  let w6 := w5.orw .omr (cfg.ETH_QUARK_OMR_ST ||| cfg.ETH_QUARK_OMR_SR)
  (cfg.OK, w6)

/-- Lines 165-294 of `eth_q_init`, everything after the call of `eth_q_phy_reset`. -/
def init_rings (cfg : Cfg) (devptr : Dentry) (w : World) : Int × World :=
  match init_tx_ring cfg (init_mac cfg devptr w) with
  | .fail w1 => (cfg.SYSERR, w1)
  | .next w1 =>
    match init_rx_alloc cfg w1 with
    | .fail w2 => (cfg.SYSERR, w2)
    | .next w2 => init_start cfg (init_rx_descs cfg w2)

/-- Embedding of `eth_q_init`.  The value returned by `eth_q_phy_reset` at
line 163 is discarded, as in the source. -/
def eth_q_init (cfg : Cfg) (fuel : Nat) (devptr : Dentry) (w : World) : Option (Int × World) :=
  let w1 := { w with eth := { w.eth with csr := devptr.dvcsr } }
  let d1 := (w1.dev.log (.pci 0x4 0x0006)).orw .bmr 0x00000001
  match wait_clear cfg .bmr 0x00000001 fuel 0 d1 with
  | none => none
  | some (true, d2) => some (cfg.SYSERR, { w1 with dev := d2 })
  | some (false, d2) =>
    match eth_q_phy_reset cfg fuel ((d2.orw .bmr 0x00010000).orw .omr 0x00200000) with
    | none => none
    | some (_, d3) => some (init_rings cfg devptr { w1 with dev := d3 })

/-- A configuration for evaluating the embedding: rings of 128 descriptors and
packet buffers of 2048 bytes, descriptors of four 32-bit words whose second
word holds two 16-bit sizes, and three polling retries. -/
def quark : Cfg where
  OK := 1
  SYSERR := -1
  ETH_QUARK_MAX_RETRIES := 3
  ETH_QUARK_INIT_DELAY := 500000
  ETH_QUARK_GMIIAR_GB := 0x00000001
  ETH_QUARK_GMIIAR_GW := 0x00000002
  ETH_QUARK_GMIIAR_CR := 0x00000004
  ETH_QUARK_MACCR_RMIISPD100 := 0x00004000
  ETH_QUARK_MACCR_DM := 0x00000800
  ETH_QUARK_MACCR_TE := 0x00000008
  ETH_QUARK_MACCR_RE := 0x00000004
  ETH_QUARK_MMC_CNTFREEZ := 0x00000008
  ETH_QUARK_MMC_CNTRST := 0x00000001
  ETH_QUARK_IER_NIE := 0x00010000
  ETH_QUARK_IER_TIE := 0x00000001
  ETH_QUARK_IER_RIE := 0x00000040
  ETH_QUARK_OMR_ST := 0x00002000
  ETH_QUARK_OMR_SR := 0x00000002
  ETH_QUARK_RDST_OWN := 0x80000000
  ETH_QUARK_RDCTL1_RER := 0x00008000
  ETH_QUARK_TX_RING_SIZE := 128
  ETH_QUARK_RX_RING_SIZE := 128
  sizeof_netpacket := 2048
  sizeof_tx_desc := 16
  tx_buffer1 := ⟨8, 4⟩
  sizeof_rx_desc := 16
  rx_status := ⟨0, 4⟩
  rx_buf1size := ⟨4, 2⟩
  rx_buffer1 := ⟨8, 4⟩

/-! ## Vocabulary of the properties -/

/-- Number of reads of `gmiiar` since the last write to `gmiiar` (the request
word), in a trace whose newest event comes first: the polls made by the
completion loop of an access. -/
def polls_since_request : List Event → Nat
  | [] => 0
  | .wr .gmiiar _ :: _ => 0
  | .rd .gmiiar _ :: t => polls_since_request t + 1
  | _ :: t => polls_since_request t

/-- Device after `k` iterations of a polling loop on `r` whose condition held:
each is a read of `r` followed by `delay(ETH_QUARK_INIT_DELAY)`. -/
def poll_n (cfg : Cfg) (r : Reg) : Nat → Dev → Dev
  | 0, d => d
  | k + 1, d => poll_n cfg r k ((d.rd r).log (.delay cfg.ETH_QUARK_INIT_DELAY))

/-- Device after `k` consecutive reads of `r`. -/
def rd_n (r : Reg) : Nat → Dev → Dev
  | 0, d => d
  | k + 1, d => rd_n r k (d.rd r)

/-- From the next read of `gmiiar` on, the busy flag reads set `j` times and
then clear (the wait that opens an access), and after that (after the request
word is written) it reads set exactly `k` times and then clear. -/
def BusyPattern (cfg : Cfg) (d : Dev) (j k : Nat) : Prop :=
  (∀ n, n < j → d.inp .gmiiar (d.pos .gmiiar + n) &&& cfg.ETH_QUARK_GMIIAR_GB ≠ 0) ∧
  d.inp .gmiiar (d.pos .gmiiar + j) &&& cfg.ETH_QUARK_GMIIAR_GB = 0 ∧
  (∀ n, n < k → d.inp .gmiiar (d.pos .gmiiar + j + 1 + n) &&& cfg.ETH_QUARK_GMIIAR_GB ≠ 0) ∧
  d.inp .gmiiar (d.pos .gmiiar + j + 1 + k) &&& cfg.ETH_QUARK_GMIIAR_GB = 0

/-- Events of a polling loop on the busy flag: reads of `gmiiar` and delays. -/
def is_poll : Event → Bool
  | .rd .gmiiar _ => true
  | .delay _ => true
  | _ => false

/-- Request words written to `gmiiar`, newest first. -/
def requests : List Event → List Nat
  | [] => []
  | .wr .gmiiar v :: t => v :: requests t
  | _ :: t => requests t

/-- Every indirect access of the next four times out: before each request the
busy flag reads clear once, after it the flag reads set
`ETH_QUARK_MAX_RETRIES + 1` times. -/
def AllTimeOut (cfg : Cfg) (d : Dev) : Prop :=
  ∀ n, n < 4 * (cfg.ETH_QUARK_MAX_RETRIES + 2) →
    (d.inp .gmiiar (d.pos .gmiiar + n) &&& cfg.ETH_QUARK_GMIIAR_GB ≠ 0 ↔
      n % (cfg.ETH_QUARK_MAX_RETRIES + 2) ≠ 0)

/-- Device whose registers read `gmiiar`, `gmiidr`, `bmr` as given and zero otherwise. -/
def sim_dev (gmiiar gmiidr bmr : Nat → Nat) : Dev where
  inp := fun r n => match r with
    | .gmiiar => gmiiar n
    | .gmiidr => gmiidr n
    | .bmr => bmr n
    | _ => 0
  pos := fun _ => 0
  trace := []

/-- Simulated device: the busy flag is clear at the first poll, set for the
next five polls and clear afterwards. -/
def busy5_dev : Dev :=
  sim_dev (fun n => if 1 ≤ n ∧ n ≤ 5 then 1 else 0) (fun _ => 0x1234) (fun _ => 0)

/-- Simulated device: the busy flag is set at the first poll only, clear at
the second, set for the next two polls and clear afterwards. -/
def busy2_dev : Dev :=
  sim_dev (fun n => if n = 0 ∨ n = 2 ∨ n = 3 then 1 else 0) (fun _ => 0x1234) (fun _ => 0)

/-- Simulated device on which every indirect access times out with three
retries: the busy flag is clear at every fifth poll only. -/
def dead_mii_dev : Dev :=
  sim_dev (fun n => if n % 5 = 0 then 0 else 1) (fun _ => 0xFFFF) (fun _ => 0)

/-- Device at the start of the completion loop of `eth_q_phy_read`, when the
opening wait saw the busy flag set `j` times. -/
def read_issued (cfg : Cfg) (j regnum : Nat) (d : Dev) : Dev :=
  ((rd_n .gmiiar j d).rd .gmiiar).wr .gmiiar (read_request cfg regnum)

/-- Device at the start of the completion loop of `eth_q_phy_write`, when the
opening wait saw the busy flag set `j` times. -/
def write_issued (cfg : Cfg) (j regnum value : Nat) (d : Dev) : Dev :=
  (((rd_n .gmiiar j d).rd .gmiiar).wr .gmiidr (value % 2 ^ 16)).wr .gmiiar
    (write_request cfg regnum)

/-- Device after an `eth_q_phy_read` that found the controller idle and then
ran out of retries. -/
def read_timed_out (cfg : Cfg) (regnum : Nat) (d : Dev) : Dev :=
  poll_n cfg .gmiiar (cfg.ETH_QUARK_MAX_RETRIES + 1) (read_issued cfg 0 regnum d)

/-- Device after an `eth_q_phy_write` that found the controller idle and then
ran out of retries. -/
def write_timed_out (cfg : Cfg) (regnum value : Nat) (d : Dev) : Dev :=
  poll_n cfg .gmiiar (cfg.ETH_QUARK_MAX_RETRIES + 1) (write_issued cfg 0 regnum value d)

/-- Byte memory after the first `n` iterations of the loop of lines 219-221. -/
def tx_fill_mem (cfg : Cfg) (tx_descs pktptr : Nat) : Nat → (Nat → Nat) → (Nat → Nat)
  | 0, m => m
  | n + 1, m =>
    mem_store (tx_fill_mem cfg tx_descs pktptr n m)
      (field_addr tx_descs cfg.sizeof_tx_desc n cfg.tx_buffer1) cfg.tx_buffer1.width
      (u32 (pktptr + n * cfg.sizeof_netpacket))

/-- Events of the first `n` iterations of the loop of lines 219-221, newest first. -/
def tx_fill_events (cfg : Cfg) (tx_descs pktptr : Nat) : Nat → List Event
  | 0 => []
  | n + 1 =>
    Event.store (field_addr tx_descs cfg.sizeof_tx_desc n cfg.tx_buffer1) cfg.tx_buffer1.width
      (u32 (pktptr + n * cfg.sizeof_netpacket)) :: tx_fill_events cfg tx_descs pktptr n

/-- Byte memory after the first `n` iterations of the loop of lines 261-266. -/
def rx_fill_mem (cfg : Cfg) (rx_descs pktptr : Nat) : Nat → (Nat → Nat) → (Nat → Nat)
  | 0, m => m
  | n + 1, m =>
    mem_store
      (mem_store
        (mem_store (rx_fill_mem cfg rx_descs pktptr n m)
          (field_addr rx_descs cfg.sizeof_rx_desc n cfg.rx_status) cfg.rx_status.width
          cfg.ETH_QUARK_RDST_OWN)
        (field_addr rx_descs cfg.sizeof_rx_desc n cfg.rx_buf1size) cfg.rx_buf1size.width
        (u32 cfg.sizeof_netpacket))
      (field_addr rx_descs cfg.sizeof_rx_desc n cfg.rx_buffer1) cfg.rx_buffer1.width
      (u32 (pktptr + n * cfg.sizeof_netpacket))

/-- Events of the first `n` iterations of the loop of lines 261-266, newest first. -/
def rx_fill_events (cfg : Cfg) (rx_descs pktptr : Nat) : Nat → List Event
  | 0 => []
  | n + 1 =>
    Event.store (field_addr rx_descs cfg.sizeof_rx_desc n cfg.rx_buffer1) cfg.rx_buffer1.width
        (u32 (pktptr + n * cfg.sizeof_netpacket)) ::
      Event.store (field_addr rx_descs cfg.sizeof_rx_desc n cfg.rx_buf1size)
        cfg.rx_buf1size.width (u32 cfg.sizeof_netpacket) ::
      Event.store (field_addr rx_descs cfg.sizeof_rx_desc n cfg.rx_status) cfg.rx_status.width
        cfg.ETH_QUARK_RDST_OWN :: rx_fill_events cfg rx_descs pktptr n

/-- Two members of a structure occupy disjoint bytes. -/
def Field.Disjoint (f g : Field) : Prop :=
  f.off + f.width ≤ g.off ∨ g.off + g.width ≤ f.off

/-- Layout of `struct eth_q_tx_desc`: `buffer1` is a 32-bit member inside the structure. -/
structure TxLayout (cfg : Cfg) : Prop where
  buffer1_width : cfg.tx_buffer1.width = 4
  buffer1_in : cfg.tx_buffer1.off + cfg.tx_buffer1.width ≤ cfg.sizeof_tx_desc

/-- Layout of `struct eth_q_rx_desc`: `status`, `buf1size` and `buffer1` lie
inside the structure and do not overlap, and `buffer1` is a 32-bit member. -/
structure RxLayout (cfg : Cfg) : Prop where
  buffer1_width : cfg.rx_buffer1.width = 4
  status_in : cfg.rx_status.off + cfg.rx_status.width ≤ cfg.sizeof_rx_desc
  buf1size_in : cfg.rx_buf1size.off + cfg.rx_buf1size.width ≤ cfg.sizeof_rx_desc
  buffer1_in : cfg.rx_buffer1.off + cfg.rx_buffer1.width ≤ cfg.sizeof_rx_desc
  status_buf1size : cfg.rx_status.Disjoint cfg.rx_buf1size
  status_buffer1 : cfg.rx_status.Disjoint cfg.rx_buffer1
  buf1size_buffer1 : cfg.rx_buf1size.Disjoint cfg.rx_buffer1

/-- Address returned by the call of `getmem` number `k` from now (0 is the next one). -/
def World.alloc (w : World) (k : Nat) : Nat := u32 (w.getmem_ret (w.getmem_calls + k))

/-- Identifier returned by the call of `semcreate` number `k` from now. -/
def World.sem (w : World) (k : Nat) : Int := w.semcreate_ret (w.semcreate_calls + k)

/-- Size in bytes requested for the transmit descriptors (lines 195-196). -/
def tx_ring_bytes (cfg : Cfg) : Nat := u32 (cfg.sizeof_tx_desc * (cfg.ETH_QUARK_TX_RING_SIZE + 1))

/-- Size in bytes requested for the transmit buffers (lines 207-208). -/
def tx_bufs_bytes (cfg : Cfg) : Nat :=
  u32 (cfg.sizeof_netpacket * (cfg.ETH_QUARK_TX_RING_SIZE + 1))

/-- Size in bytes requested for the receive descriptors (lines 232-233). -/
def rx_ring_bytes (cfg : Cfg) : Nat := u32 (cfg.sizeof_rx_desc * (cfg.ETH_QUARK_RX_RING_SIZE + 1))

/-- Size in bytes requested for the receive buffers (lines 245-246). -/
def rx_bufs_bytes (cfg : Cfg) : Nat :=
  u32 (cfg.sizeof_netpacket * (cfg.ETH_QUARK_RX_RING_SIZE + 1))

/-- Memory once the transmit ring is set up (after line 221), in terms of the
world in which the ring initialisation starts. -/
def mem_after_tx (cfg : Cfg) (w : World) : Nat → Nat :=
  tx_fill_mem cfg (align4 (w.alloc 0)) (align4 (w.alloc 1)) cfg.ETH_QUARK_TX_RING_SIZE
    (mem_set w.mem (w.alloc 0) 0 (tx_ring_bytes cfg))

/-- Memory when the receive loop is about to run (after line 238). -/
def mem_before_rx (cfg : Cfg) (w : World) : Nat → Nat :=
  mem_set (mem_after_tx cfg w) (w.alloc 2) 0 (rx_ring_bytes cfg)

/-- Memory after the receive loop (after line 266). -/
def mem_after_rx (cfg : Cfg) (w : World) : Nat → Nat :=
  rx_fill_mem cfg (align4 (w.alloc 2)) (align4 (w.alloc 3)) cfg.ETH_QUARK_RX_RING_SIZE
    (mem_before_rx cfg w)

/-- Address of `rx_descs[rxRingSize-1].buf1size`. -/
def rer_addr (cfg : Cfg) (w : World) : Nat :=
  field_addr (align4 (w.alloc 2)) cfg.sizeof_rx_desc (cfg.ETH_QUARK_RX_RING_SIZE - 1)
    cfg.rx_buf1size

/-- Value stored by line 269. -/
def rer_value (cfg : Cfg) (w : World) : Nat :=
  mem_load (mem_after_rx cfg w) (rer_addr cfg w) cfg.rx_buf1size.width
    ||| cfg.ETH_QUARK_RDCTL1_RER

/-- Memory after line 269; nothing later in `eth_q_init` writes to memory. -/
def mem_final (cfg : Cfg) (w : World) : Nat → Nat :=
  mem_store (mem_after_rx cfg w) (rer_addr cfg w) cfg.rx_buf1size.width (rer_value cfg w)

/-- Events of lines 192-227 when nothing fails, newest first. -/
def tx_events (cfg : Cfg) (w : World) : List Event :=
  Event.semcreate cfg.ETH_QUARK_TX_RING_SIZE (w.sem 0) ::
    (tx_fill_events cfg (align4 (w.alloc 0)) (align4 (w.alloc 1)) cfg.ETH_QUARK_TX_RING_SIZE ++
      [Event.getmem (tx_bufs_bytes cfg) (w.alloc 1),
       Event.memset (w.alloc 0) 0 (tx_ring_bytes cfg),
       Event.getmem (tx_ring_bytes cfg) (w.alloc 0)])

/-- Events of lines 229-269 when nothing fails, newest first. -/
def rx_events (cfg : Cfg) (w : World) : List Event :=
  Event.store (rer_addr cfg w) cfg.rx_buf1size.width (rer_value cfg w) ::
    (rx_fill_events cfg (align4 (w.alloc 2)) (align4 (w.alloc 3)) cfg.ETH_QUARK_RX_RING_SIZE ++
      [Event.getmem (rx_bufs_bytes cfg) (w.alloc 3),
       Event.memset (w.alloc 2) 0 (rx_ring_bytes cfg),
       Event.getmem (rx_ring_bytes cfg) (w.alloc 2)])

/-- Events of lines 277-292, newest first, given the values read from `maccr` and `omr`. -/
def start_events (cfg : Cfg) (w : World) (old_maccr old_omr : Nat) : List Event :=
  [Event.orw .omr (cfg.ETH_QUARK_OMR_ST ||| cfg.ETH_QUARK_OMR_SR) old_omr,
   Event.orw .maccr (cfg.ETH_QUARK_MACCR_TE ||| cfg.ETH_QUARK_MACCR_RE) old_maccr,
   Event.wr .rdla (u32 (align4 (w.alloc 2))),
   Event.wr .tdla (u32 (align4 (w.alloc 0))),
   Event.wr .ier (cfg.ETH_QUARK_IER_NIE ||| cfg.ETH_QUARK_IER_TIE ||| cfg.ETH_QUARK_IER_RIE)]

/-- The statement of line 292, `csrptr->omr |= (ETH_QUARK_OMR_ST | ETH_QUARK_OMR_SR)`. -/
def is_start (cfg : Cfg) : Event → Bool
  | .orw .omr mask _ => decide (mask = cfg.ETH_QUARK_OMR_ST ||| cfg.ETH_QUARK_OMR_SR)
  | _ => false

/-- Value most recently written to register `r` by the driver, in a trace
whose newest event comes first. -/
def last_write (r : Reg) : List Event → Option Nat
  | [] => none
  | .wr x v :: t => if x = r then some v else last_write r t
  | .orw x mask old :: t => if x = r then some (old ||| mask) else last_write r t
  | _ :: t => last_write r t

/-- A call of `semcreate`. -/
def is_semcreate : Event → Bool
  | .semcreate _ _ => true
  | _ => false

/-- Events of the register access layer and the link manager: plain reads and
writes of registers, delays and messages. -/
def is_access : Event → Bool
  | .rd _ _ => true
  | .wr _ _ => true
  | .delay _ => true
  | .kprintf _ => true
  | _ => false

/-- The trace of `d1` extends that of `d` by register accesses, delays and messages only. -/
def Dev.Grows (d d1 : Dev) : Prop :=
  ∃ new, d1.trace = new ++ d.trace ∧ ∀ e, e ∈ new → is_access e = true

/-- Contract of the allocator for the four calls of `getmem` made by
`eth_q_init`: every block it returns lies below the top of the 32-bit address
space, and the two descriptor blocks do not overlap. -/
structure AllocOK (cfg : Cfg) (w : World) : Prop where
  tx_ring : w.getmem_ret w.getmem_calls
    + cfg.sizeof_tx_desc * (cfg.ETH_QUARK_TX_RING_SIZE + 1) < 2 ^ 32
  tx_bufs : w.getmem_ret (w.getmem_calls + 1)
    + cfg.sizeof_netpacket * (cfg.ETH_QUARK_TX_RING_SIZE + 1) < 2 ^ 32
  rx_ring : w.getmem_ret (w.getmem_calls + 2)
    + cfg.sizeof_rx_desc * (cfg.ETH_QUARK_RX_RING_SIZE + 1) < 2 ^ 32
  rx_bufs : w.getmem_ret (w.getmem_calls + 3)
    + cfg.sizeof_netpacket * (cfg.ETH_QUARK_RX_RING_SIZE + 1) < 2 ^ 32
  rings_apart :
    w.getmem_ret w.getmem_calls + cfg.sizeof_tx_desc * (cfg.ETH_QUARK_TX_RING_SIZE + 1)
        ≤ w.getmem_ret (w.getmem_calls + 2) ∨
    w.getmem_ret (w.getmem_calls + 2) + cfg.sizeof_rx_desc * (cfg.ETH_QUARK_RX_RING_SIZE + 1)
        ≤ w.getmem_ret w.getmem_calls

/-- A registration of the interrupt handler. -/
def is_evec : Event → Bool
  | .evec _ _ => true
  | _ => false

/-- A write to one of the hardware address registers. -/
def is_macaddr_write : Event → Bool
  | .wr .macaddr0l _ => true
  | .wr .macaddr0h _ => true
  | _ => false

/-- A call of `getmem`. -/
def is_getmem : Event → Bool
  | .getmem _ _ => true
  | _ => false

/-- World around the simulated device `d`: every byte of memory holds `0xAA`,
`getmem` returns blocks one megabyte apart starting at `0x100000`, `semcreate`
returns 1, 2, ... and the stored hardware address is `02:00:00:00:00:01`. -/
def sim_world (d : Dev) : World where
  dev := d
  mem := fun _ => 0xAA
  getmem_ret := fun k => 0x100000 + k * 0x100000
  getmem_calls := 0
  semcreate_ret := fun k => (k : Int) + 1
  semcreate_calls := 0
  pdat_mac := fun k => if k = 0 then 2 else if k = 5 then 1 else 0
  eth := ⟨0, (fun _ => 0), 0, 0, 0, 0, 0, 0, 0, 0⟩

/-- Device table entry used with the simulated worlds. -/
def sim_dentry : Dentry := ⟨0x90000000, 40, 0x00103000⟩

/-- Simulated device that never shows a busy flag and whose PHY registers read zero. -/
def quiet_dev : Dev := sim_dev (fun _ => 0) (fun _ => 0) (fun _ => 0)

/-- Simulated device that never shows a busy flag and whose PHY control
register always reads with the reset bit 0x8000 set. -/
def stuck_reset_dev : Dev := sim_dev (fun _ => 0) (fun _ => 0x8000) (fun _ => 0)

/-- Outcome of a part of `eth_q_init` as a world. -/
def Step.world : Step → World
  | .next w => w
  | .fail w => w

/-- Whether a part of `eth_q_init` fell through to the next statement. -/
def Step.ok : Step → Bool
  | .next _ => true
  | .fail _ => false

/-- The simulated world on the quiet device in which the second call of
`semcreate`, the one for the input counter, fails. -/
def isem_fail_world : World :=
  { sim_world quiet_dev with semcreate_ret := fun k => if k = 1 then -1 else 1 }

/-- Device on which `eth_q_init` calls `eth_q_phy_reset` (line 163) when it
starts on `d` and the MAC reset bit reads clear at the first poll. -/
def dev_at_phy_reset (d : Dev) : Dev :=
  ((((d.log (.pci 0x4 0x0006)).orw .bmr 0x00000001).rd .bmr).orw .bmr 0x00010000).orw .omr
    0x00200000

/-! ## Reads, writes and polling loops -/

@[simp] theorem Dev.rd_inp (d : Dev) (r : Reg) : (d.rd r).inp = d.inp := rfl
@[simp] theorem Dev.rd_pos_same (d : Dev) (r : Reg) : (d.rd r).pos r = d.pos r + 1 := by
  simp [Dev.rd, Dev.bump]
@[simp] theorem Dev.rd_pos_other (d : Dev) (r x : Reg) (h : x ≠ r) : (d.rd r).pos x = d.pos x := by
  simp [Dev.rd, Dev.bump, h]
@[simp] theorem Dev.rd_trace (d : Dev) (r : Reg) :
    (d.rd r).trace = Event.rd r (d.val r) :: d.trace := rfl
@[simp] theorem Dev.wr_inp (d : Dev) (r : Reg) (v : Nat) : (d.wr r v).inp = d.inp := rfl
@[simp] theorem Dev.wr_pos (d : Dev) (r : Reg) (v : Nat) : (d.wr r v).pos = d.pos := rfl
@[simp] theorem Dev.wr_trace (d : Dev) (r : Reg) (v : Nat) :
    (d.wr r v).trace = Event.wr r v :: d.trace := rfl
@[simp] theorem Dev.log_inp (d : Dev) (e : Event) : (d.log e).inp = d.inp := rfl
@[simp] theorem Dev.log_pos (d : Dev) (e : Event) : (d.log e).pos = d.pos := rfl
@[simp] theorem Dev.log_trace (d : Dev) (e : Event) : (d.log e).trace = e :: d.trace := rfl
@[simp] theorem Dev.orw_inp (d : Dev) (r : Reg) (m : Nat) : (d.orw r m).inp = d.inp := rfl
@[simp] theorem Dev.orw_trace (d : Dev) (r : Reg) (m : Nat) :
    (d.orw r m).trace = Event.orw r m (d.val r) :: d.trace := rfl
@[simp] theorem Dev.wr_val (d : Dev) (r x : Reg) (v : Nat) : (d.wr r v).val x = d.val x := rfl
@[simp] theorem Dev.log_val (d : Dev) (e : Event) (x : Reg) : (d.log e).val x = d.val x := rfl

theorem poll_n_inp (cfg : Cfg) (r : Reg) (k : Nat) (d : Dev) : (poll_n cfg r k d).inp = d.inp := by
  induction k generalizing d with
  | zero => rfl
  | succ k ih => simp [poll_n, ih]

theorem poll_n_pos_same (cfg : Cfg) (r : Reg) (k : Nat) (d : Dev) :
    (poll_n cfg r k d).pos r = d.pos r + k := by
  induction k generalizing d with
  | zero => rfl
  | succ k ih => simp [poll_n, ih]; omega

theorem poll_n_pos_other (cfg : Cfg) (r x : Reg) (h : x ≠ r) (k : Nat) (d : Dev) :
    (poll_n cfg r k d).pos x = d.pos x := by
  induction k generalizing d with
  | zero => rfl
  | succ k ih => simp [poll_n, ih, h]

theorem rd_n_inp (r : Reg) (k : Nat) (d : Dev) : (rd_n r k d).inp = d.inp := by
  induction k generalizing d with
  | zero => rfl
  | succ k ih => simp [rd_n, ih]

theorem rd_n_pos_same (r : Reg) (k : Nat) (d : Dev) : (rd_n r k d).pos r = d.pos r + k := by
  induction k generalizing d with
  | zero => rfl
  | succ k ih => simp [rd_n, ih]; omega

theorem rd_n_pos_other (r x : Reg) (h : x ≠ r) (k : Nat) (d : Dev) :
    (rd_n r k d).pos x = d.pos x := by
  induction k generalizing d with
  | zero => rfl
  | succ k ih => simp [rd_n, ih, h]

/-- The opening wait returns once the busy flag reads clear. -/
theorem mii_ready_spec (cfg : Cfg) (j : Nat) : ∀ (fuel : Nat) (d : Dev),
    (∀ n, n < j → d.inp .gmiiar (d.pos .gmiiar + n) &&& cfg.ETH_QUARK_GMIIAR_GB ≠ 0) →
    d.inp .gmiiar (d.pos .gmiiar + j) &&& cfg.ETH_QUARK_GMIIAR_GB = 0 →
    j < fuel →
    mii_ready cfg fuel d = some ((rd_n .gmiiar j d).rd .gmiiar) := by
  induction j with
  | zero =>
    intro fuel d _ hidle hf
    obtain ⟨n, rfl⟩ : ∃ n, fuel = n + 1 := ⟨fuel - 1, by omega⟩
    have h0 : d.inp .gmiiar (d.pos .gmiiar) &&& cfg.ETH_QUARK_GMIIAR_GB = 0 := by simpa using hidle
    simp [mii_ready, Dev.val, rd_n, h0]
  | succ j ih =>
    intro fuel d hbusy hidle hf
    obtain ⟨n, rfl⟩ : ∃ n, fuel = n + 1 := ⟨fuel - 1, by omega⟩
    have h0 := hbusy 0 (by omega)
    simp only [Nat.add_zero] at h0
    simp only [mii_ready, Dev.val, h0, ne_eq, not_false_eq_true, if_true, rd_n]
    apply ih
    · intro m hm
      have := hbusy (m + 1) (by omega)
      simpa [Nat.add_assoc, Nat.add_comm 1 m] using this
    · simpa [Nat.add_assoc, Nat.add_comm 1 j] using hidle
    · omega

/-- The bounded wait leaves through its condition when the flag clears within the retry budget. -/
theorem wait_clear_done (cfg : Cfg) (r : Reg) (mask : Nat) (k : Nat) :
    ∀ (fuel retries : Nat) (d : Dev),
    (∀ n, n < k → d.inp r (d.pos r + n) &&& mask ≠ 0) →
    d.inp r (d.pos r + k) &&& mask = 0 →
    retries + k ≤ cfg.ETH_QUARK_MAX_RETRIES →
    k < fuel →
    wait_clear cfg r mask fuel retries d = some (false, (poll_n cfg r k d).rd r) := by
  induction k with
  | zero =>
    intro fuel retries d _ hidle _ hf
    obtain ⟨n, rfl⟩ : ∃ n, fuel = n + 1 := ⟨fuel - 1, by omega⟩
    have h0 : d.inp r (d.pos r) &&& mask = 0 := by simpa using hidle
    simp [wait_clear, Dev.val, poll_n, h0]
  | succ k ih =>
    intro fuel retries d hbusy hidle hle hf
    obtain ⟨n, rfl⟩ : ∃ n, fuel = n + 1 := ⟨fuel - 1, by omega⟩
    have h0 := hbusy 0 (by omega)
    simp only [Nat.add_zero] at h0
    have hnot : ¬ retries + 1 > cfg.ETH_QUARK_MAX_RETRIES := by omega
    simp only [wait_clear, Dev.val, h0, ne_eq, not_false_eq_true, if_true, hnot, if_false, poll_n]
    apply ih
    · intro m hm
      have := hbusy (m + 1) (by omega)
      simpa [Nat.add_assoc, Nat.add_comm 1 m] using this
    · simpa [Nat.add_assoc, Nat.add_comm 1 k] using hidle
    · omega
    · omega

/-- The bounded wait gives up after `ETH_QUARK_MAX_RETRIES + 1` reads that all show the flag set. -/
theorem wait_clear_timeout (cfg : Cfg) (r : Reg) (mask : Nat) (k : Nat) :
    ∀ (fuel retries : Nat) (d : Dev),
    (∀ n, n < k + 1 → d.inp r (d.pos r + n) &&& mask ≠ 0) →
    retries + k = cfg.ETH_QUARK_MAX_RETRIES →
    k < fuel →
    wait_clear cfg r mask fuel retries d = some (true, poll_n cfg r (k + 1) d) := by
  induction k with
  | zero =>
    intro fuel retries d hbusy hle hf
    obtain ⟨n, rfl⟩ : ∃ n, fuel = n + 1 := ⟨fuel - 1, by omega⟩
    have h0 := hbusy 0 (by omega)
    simp only [Nat.add_zero] at h0
    have hgt : retries + 1 > cfg.ETH_QUARK_MAX_RETRIES := by omega
    simp [wait_clear, Dev.val, h0, hgt, poll_n]
  | succ k ih =>
    intro fuel retries d hbusy hle hf
    obtain ⟨n, rfl⟩ : ∃ n, fuel = n + 1 := ⟨fuel - 1, by omega⟩
    have h0 := hbusy 0 (by omega)
    simp only [Nat.add_zero] at h0
    have hnot : ¬ retries + 1 > cfg.ETH_QUARK_MAX_RETRIES := by omega
    simp only [wait_clear, Dev.val, h0, ne_eq, not_false_eq_true, if_true, hnot, if_false]
    rw [poll_n]
    apply ih
    · intro m hm
      have := hbusy (m + 1) (by omega)
      simpa [Nat.add_assoc, Nat.add_comm 1 m] using this
    · omega
    · omega

theorem poll_n_val_other (cfg : Cfg) (r x : Reg) (h : x ≠ r) (k : Nat) (d : Dev) :
    (poll_n cfg r k d).val x = d.val x := by
  simp [Dev.val, poll_n_inp, poll_n_pos_other cfg r x h]

theorem poll_n_succ_trace (cfg : Cfg) (r : Reg) (k : Nat) (d : Dev) :
    (poll_n cfg r (k + 1) d).trace =
      Event.delay cfg.ETH_QUARK_INIT_DELAY ::
        Event.rd r (d.inp r (d.pos r + k)) :: (poll_n cfg r k d).trace := by
  induction k generalizing d with
  | zero => simp [poll_n, Dev.val]
  | succ k ih =>
    rw [poll_n, ih]
    simp [poll_n, Nat.add_assoc, Nat.add_comm 1 k]

/-- The events of `k` polling iterations, and what came before them. -/
theorem poll_n_ext (cfg : Cfg) (k : Nat) (d : Dev) :
    ∃ polls, (∀ e, e ∈ polls → is_poll e = true) ∧
      (poll_n cfg .gmiiar k d).trace = polls ++ d.trace := by
  induction k generalizing d with
  | zero => exact ⟨[], by simp, by simp [poll_n]⟩
  | succ k ih =>
    obtain ⟨p, hp, ht⟩ := ih ((d.rd .gmiiar).log (.delay cfg.ETH_QUARK_INIT_DELAY))
    refine ⟨p ++ [Event.delay cfg.ETH_QUARK_INIT_DELAY, Event.rd .gmiiar (d.val .gmiiar)], ?_, ?_⟩
    · intro e he
      rcases List.mem_append.1 he with h | h
      · exact hp e h
      · simp at h
        rcases h with rfl | rfl <;> rfl
    · rw [poll_n, ht]; simp

theorem polls_since_request_poll_n (cfg : Cfg) (k : Nat) (d : Dev) :
    polls_since_request (poll_n cfg .gmiiar k d).trace = polls_since_request d.trace + k := by
  induction k generalizing d with
  | zero => rfl
  | succ k ih =>
    rw [poll_n, ih]
    simp [polls_since_request]
    omega

theorem requests_of_polls (polls : List Event) (h : ∀ e, e ∈ polls → is_poll e = true)
    (t : List Event) : requests (polls ++ t) = requests t := by
  induction polls with
  | nil => rfl
  | cons e p ih =>
    have he := h e (by simp)
    have hp : ∀ x, x ∈ p → is_poll x = true := fun x hx => h x (by simp [hx])
    cases e with
    | rd r v => cases r <;> simp_all [requests, is_poll]
    | delay us => simp_all [requests]
    | _ => simp [is_poll] at he

@[simp] theorem Dev.rd_val_other (d : Dev) (r x : Reg) (h : x ≠ r) : (d.rd r).val x = d.val x := by
  simp [Dev.val, h]

@[simp] theorem read_issued_inp (cfg : Cfg) (j regnum : Nat) (d : Dev) :
    (read_issued cfg j regnum d).inp = d.inp := by
  simp [read_issued, rd_n_inp]

@[simp] theorem read_issued_pos (cfg : Cfg) (j regnum : Nat) (d : Dev) :
    (read_issued cfg j regnum d).pos .gmiiar = d.pos .gmiiar + j + 1 := by
  simp [read_issued, rd_n_pos_same]

@[simp] theorem read_issued_pos_other (cfg : Cfg) (j regnum : Nat) (d : Dev) (x : Reg)
    (h : x ≠ .gmiiar) : (read_issued cfg j regnum d).pos x = d.pos x := by
  simp [read_issued, rd_n_pos_other _ _ h, h]

@[simp] theorem write_issued_inp (cfg : Cfg) (j regnum value : Nat) (d : Dev) :
    (write_issued cfg j regnum value d).inp = d.inp := by
  simp [write_issued, rd_n_inp]

@[simp] theorem write_issued_pos (cfg : Cfg) (j regnum value : Nat) (d : Dev) :
    (write_issued cfg j regnum value d).pos .gmiiar = d.pos .gmiiar + j + 1 := by
  simp [write_issued, rd_n_pos_same]

@[simp] theorem write_issued_pos_other (cfg : Cfg) (j regnum value : Nat) (d : Dev) (x : Reg)
    (h : x ≠ .gmiiar) : (write_issued cfg j regnum value d).pos x = d.pos x := by
  simp [write_issued, rd_n_pos_other _ _ h, h]

@[simp] theorem polls_read_issued (cfg : Cfg) (j regnum : Nat) (d : Dev) :
    polls_since_request (read_issued cfg j regnum d).trace = 0 := by
  simp [read_issued, polls_since_request]

@[simp] theorem polls_write_issued (cfg : Cfg) (j regnum value : Nat) (d : Dev) :
    polls_since_request (write_issued cfg j regnum value d).trace = 0 := by
  simp [write_issued, polls_since_request]

/-- A read whose completion loop sees the flag clear within the retry budget. -/
theorem phy_read_done (cfg : Cfg) (fuel j k regnum : Nat) (d : Dev)
    (hj : j < fuel) (hk : k ≤ cfg.ETH_QUARK_MAX_RETRIES) (hkf : k < fuel)
    (hbusy : BusyPattern cfg d j k) :
    eth_q_phy_read cfg fuel d regnum =
      some (d.val .gmiidr % 2 ^ 16,
        ((poll_n cfg .gmiiar k (read_issued cfg j regnum d)).rd .gmiiar).rd .gmiidr) := by
  obtain ⟨h1, h2, h3, h4⟩ := hbusy
  have hw := wait_clear_done cfg .gmiiar cfg.ETH_QUARK_GMIIAR_GB k fuel 0
    (read_issued cfg j regnum d) (by simpa using h3) (by simpa using h4) (by omega) hkf
  have hv : ((poll_n cfg .gmiiar k (read_issued cfg j regnum d)).rd .gmiiar).val .gmiidr
      = d.val .gmiidr := by
    rw [Dev.rd_val_other _ _ _ (by decide), poll_n_val_other _ _ _ (by decide)]
    simp [Dev.val]
  unfold eth_q_phy_read
  rw [mii_ready_spec cfg j fuel d h1 h2 hj]
  simp only []
  rw [show ((rd_n .gmiiar j d).rd .gmiiar).wr .gmiiar (read_request cfg regnum)
    = read_issued cfg j regnum d from rfl, hw]
  simp only [hv]

/-- A read whose completion loop runs out of retries. -/
theorem phy_read_timeout (cfg : Cfg) (fuel j regnum : Nat) (d : Dev)
    (hj : j < fuel) (hkf : cfg.ETH_QUARK_MAX_RETRIES < fuel)
    (h1 : ∀ n, n < j → d.inp .gmiiar (d.pos .gmiiar + n) &&& cfg.ETH_QUARK_GMIIAR_GB ≠ 0)
    (h2 : d.inp .gmiiar (d.pos .gmiiar + j) &&& cfg.ETH_QUARK_GMIIAR_GB = 0)
    (h3 : ∀ n, n < cfg.ETH_QUARK_MAX_RETRIES + 1 →
      d.inp .gmiiar (d.pos .gmiiar + j + 1 + n) &&& cfg.ETH_QUARK_GMIIAR_GB ≠ 0) :
    eth_q_phy_read cfg fuel d regnum =
      some (0, poll_n cfg .gmiiar (cfg.ETH_QUARK_MAX_RETRIES + 1) (read_issued cfg j regnum d)) := by
  have hw := wait_clear_timeout cfg .gmiiar cfg.ETH_QUARK_GMIIAR_GB cfg.ETH_QUARK_MAX_RETRIES
    fuel 0 (read_issued cfg j regnum d) (by simpa using h3) (by omega) hkf
  unfold eth_q_phy_read
  rw [mii_ready_spec cfg j fuel d h1 h2 hj]
  simp only []
  rw [show ((rd_n .gmiiar j d).rd .gmiiar).wr .gmiiar (read_request cfg regnum)
    = read_issued cfg j regnum d from rfl, hw]

/-- A write whose completion loop sees the flag clear within the retry budget. -/
theorem phy_write_done (cfg : Cfg) (fuel j k regnum value : Nat) (d : Dev)
    (hj : j < fuel) (hk : k ≤ cfg.ETH_QUARK_MAX_RETRIES) (hkf : k < fuel)
    (hbusy : BusyPattern cfg d j k) :
    eth_q_phy_write cfg fuel d regnum value =
      some ((poll_n cfg .gmiiar k (write_issued cfg j regnum value d)).rd .gmiiar) := by
  obtain ⟨h1, h2, h3, h4⟩ := hbusy
  have hw := wait_clear_done cfg .gmiiar cfg.ETH_QUARK_GMIIAR_GB k fuel 0
    (write_issued cfg j regnum value d) (by simpa using h3) (by simpa using h4) (by omega) hkf
  unfold eth_q_phy_write
  rw [mii_ready_spec cfg j fuel d h1 h2 hj]
  simp only []
  rw [show (((rd_n .gmiiar j d).rd .gmiiar).wr .gmiidr (value % 2 ^ 16)).wr .gmiiar
    (write_request cfg regnum) = write_issued cfg j regnum value d from rfl, hw]

/-- A write whose completion loop runs out of retries. -/
theorem phy_write_timeout (cfg : Cfg) (fuel j regnum value : Nat) (d : Dev)
    (hj : j < fuel) (hkf : cfg.ETH_QUARK_MAX_RETRIES < fuel)
    (h1 : ∀ n, n < j → d.inp .gmiiar (d.pos .gmiiar + n) &&& cfg.ETH_QUARK_GMIIAR_GB ≠ 0)
    (h2 : d.inp .gmiiar (d.pos .gmiiar + j) &&& cfg.ETH_QUARK_GMIIAR_GB = 0)
    (h3 : ∀ n, n < cfg.ETH_QUARK_MAX_RETRIES + 1 →
      d.inp .gmiiar (d.pos .gmiiar + j + 1 + n) &&& cfg.ETH_QUARK_GMIIAR_GB ≠ 0) :
    eth_q_phy_write cfg fuel d regnum value =
      some (poll_n cfg .gmiiar (cfg.ETH_QUARK_MAX_RETRIES + 1)
        (write_issued cfg j regnum value d)) := by
  have hw := wait_clear_timeout cfg .gmiiar cfg.ETH_QUARK_GMIIAR_GB cfg.ETH_QUARK_MAX_RETRIES
    fuel 0 (write_issued cfg j regnum value d) (by simpa using h3) (by omega) hkf
  unfold eth_q_phy_write
  rw [mii_ready_spec cfg j fuel d h1 h2 hj]
  simp only []
  rw [show (((rd_n .gmiiar j d).rd .gmiiar).wr .gmiidr (value % 2 ^ 16)).wr .gmiiar
    (write_request cfg regnum) = write_issued cfg j regnum value d from rfl, hw]

/-! ## Link manager -/

/-- The behaviour of the busy flag around the access number `t` of four that time out. -/
theorem AllTimeOut.access (cfg : Cfg) (d : Dev) (h : AllTimeOut cfg d) (t : Nat) (ht : t < 4) :
    d.inp .gmiiar (d.pos .gmiiar + t * (cfg.ETH_QUARK_MAX_RETRIES + 2))
        &&& cfg.ETH_QUARK_GMIIAR_GB = 0 ∧
    ∀ i, i < cfg.ETH_QUARK_MAX_RETRIES + 1 →
      d.inp .gmiiar (d.pos .gmiiar + t * (cfg.ETH_QUARK_MAX_RETRIES + 2) + 1 + i)
        &&& cfg.ETH_QUARK_GMIIAR_GB ≠ 0 := by
  have hle : (t + 1) * (cfg.ETH_QUARK_MAX_RETRIES + 2) ≤ 4 * (cfg.ETH_QUARK_MAX_RETRIES + 2) :=
    Nat.mul_le_mul_right _ (by omega)
  rw [Nat.add_mul, Nat.one_mul] at hle
  constructor
  · have h1 := h (t * (cfg.ETH_QUARK_MAX_RETRIES + 2)) (by omega)
    have hm : t * (cfg.ETH_QUARK_MAX_RETRIES + 2) % (cfg.ETH_QUARK_MAX_RETRIES + 2) = 0 :=
      Nat.mul_mod_left _ _
    by_contra hne
    exact (h1.1 hne) hm
  · intro i hi
    have h1 := h (t * (cfg.ETH_QUARK_MAX_RETRIES + 2) + (1 + i)) (by omega)
    have hm : (t * (cfg.ETH_QUARK_MAX_RETRIES + 2) + (1 + i)) % (cfg.ETH_QUARK_MAX_RETRIES + 2)
        = 1 + i := by
      rw [Nat.add_comm, Nat.add_mul_mod_self_right, Nat.mod_eq_of_lt (by omega)]
    have := h1.2 (by rw [hm]; omega)
    simpa [Nat.add_assoc] using this

theorem requests_append (a b : List Event) : requests (a ++ b) = requests a ++ requests b := by
  induction a with
  | nil => rfl
  | cons e a ih =>
    cases e with
    | wr r v => cases r <;> simp [requests, ih]
    | _ => simp [requests, ih]

theorem read_timed_out_inp (cfg : Cfg) (regnum : Nat) (d : Dev) :
    (read_timed_out cfg regnum d).inp = d.inp := by
  simp [read_timed_out, poll_n_inp]

theorem read_timed_out_pos (cfg : Cfg) (regnum : Nat) (d : Dev) :
    (read_timed_out cfg regnum d).pos .gmiiar
      = d.pos .gmiiar + (cfg.ETH_QUARK_MAX_RETRIES + 2) := by
  simp [read_timed_out, poll_n_pos_same]; omega

theorem read_timed_out_pos_other (cfg : Cfg) (regnum : Nat) (d : Dev) (x : Reg)
    (h : x ≠ .gmiiar) : (read_timed_out cfg regnum d).pos x = d.pos x := by
  simp [read_timed_out, poll_n_pos_other _ _ _ h, h]

theorem write_timed_out_inp (cfg : Cfg) (regnum value : Nat) (d : Dev) :
    (write_timed_out cfg regnum value d).inp = d.inp := by
  simp [write_timed_out, poll_n_inp]

theorem write_timed_out_pos (cfg : Cfg) (regnum value : Nat) (d : Dev) :
    (write_timed_out cfg regnum value d).pos .gmiiar
      = d.pos .gmiiar + (cfg.ETH_QUARK_MAX_RETRIES + 2) := by
  simp [write_timed_out, poll_n_pos_same]; omega

theorem write_timed_out_pos_other (cfg : Cfg) (regnum value : Nat) (d : Dev) (x : Reg)
    (h : x ≠ .gmiiar) : (write_timed_out cfg regnum value d).pos x = d.pos x := by
  simp [write_timed_out, poll_n_pos_other _ _ _ h, h]

theorem not_rd_gmiidr_of_poll (e : Event) (h : is_poll e = true) (v : Nat) :
    e ≠ Event.rd .gmiidr v := by
  intro he
  subst he
  simp [is_poll] at h

/-- Events of a read that timed out: one request, no read of `gmiidr`. -/
theorem read_timed_out_new (cfg : Cfg) (regnum : Nat) (d : Dev) :
    ∃ new, (read_timed_out cfg regnum d).trace = new ++ d.trace ∧
      requests new = [read_request cfg regnum] ∧ ∀ v, Event.rd .gmiidr v ∉ new := by
  obtain ⟨polls, hp, ht⟩ := poll_n_ext cfg (cfg.ETH_QUARK_MAX_RETRIES + 1)
    (read_issued cfg 0 regnum d)
  refine ⟨polls ++ [Event.wr .gmiiar (read_request cfg regnum), Event.rd .gmiiar (d.val .gmiiar)],
    ?_, ?_, ?_⟩
  · rw [read_timed_out, ht]
    simp [read_issued, rd_n]
  · rw [requests_of_polls polls hp]
    simp [requests]
  · intro v hv
    rcases List.mem_append.1 hv with h | h
    · exact not_rd_gmiidr_of_poll _ (hp _ h) v rfl
    · simp at h

/-- Events of a write that timed out: one request, no read of `gmiidr`. -/
theorem write_timed_out_new (cfg : Cfg) (regnum value : Nat) (d : Dev) :
    ∃ new, (write_timed_out cfg regnum value d).trace = new ++ d.trace ∧
      requests new = [write_request cfg regnum] ∧ ∀ v, Event.rd .gmiidr v ∉ new := by
  obtain ⟨polls, hp, ht⟩ := poll_n_ext cfg (cfg.ETH_QUARK_MAX_RETRIES + 1)
    (write_issued cfg 0 regnum value d)
  refine ⟨polls ++ [Event.wr .gmiiar (write_request cfg regnum),
    Event.wr .gmiidr (value % 2 ^ 16), Event.rd .gmiiar (d.val .gmiiar)], ?_, ?_, ?_⟩
  · rw [write_timed_out, ht]
    simp [write_issued, rd_n]
  · rw [requests_of_polls polls hp]
    simp [requests]
  · intro v hv
    rcases List.mem_append.1 hv with h | h
    · exact not_rd_gmiidr_of_poll _ (hp _ h) v rfl
    · simp at h

/-! ## Byte memory -/

theorem mem_store_outside (m : Nat → Nat) (a w v x : Nat) (h : x < a ∨ a + w ≤ x) :
    mem_store m a w v x = m x := by
  unfold mem_store
  rw [if_neg]
  omega

theorem mem_set_outside (m : Nat → Nat) (a c n x : Nat) (h : x < a ∨ a + n ≤ x) :
    mem_set m a c n x = m x := by
  unfold mem_set
  rw [if_neg]
  omega

theorem mem_set_inside (m : Nat → Nat) (a c n x : Nat) (h1 : a ≤ x) (h2 : x < a + n) :
    mem_set m a c n x = c % 256 := by
  unfold mem_set
  rw [if_pos ⟨h1, h2⟩]

theorem mem_load_congr (m1 m2 : Nat → Nat) (w : Nat) : ∀ (a : Nat),
    (∀ x, a ≤ x → x < a + w → m1 x = m2 x) → mem_load m1 a w = mem_load m2 a w := by
  induction w with
  | zero => intro a _; rfl
  | succ k ih =>
    intro a h
    simp only [mem_load]
    rw [h a (by omega) (by omega), ih (a + 1) (fun x h1 h2 => h x (by omega) (by omega))]

theorem mem_load_zero (m : Nat → Nat) (w : Nat) : ∀ (a : Nat),
    (∀ x, a ≤ x → x < a + w → m x = 0) → mem_load m a w = 0 := by
  induction w with
  | zero => intro a _; rfl
  | succ k ih =>
    intro a h
    simp only [mem_load]
    rw [h a (by omega) (by omega), ih (a + 1) (fun x h1 h2 => h x (by omega) (by omega))]

/-- A load returns what a store of the same width at the same address wrote. -/
theorem mem_load_store (w : Nat) : ∀ (m : Nat → Nat) (a v : Nat),
    mem_load (mem_store m a w v) a w = v % 256 ^ w := by
  induction w with
  | zero => intro m a v; simp [mem_load, Nat.mod_one]
  | succ k ih =>
    intro m a v
    simp only [mem_load]
    have h0 : mem_store m a (k + 1) v a = v % 256 := by
      unfold mem_store
      rw [if_pos ⟨Nat.le_refl _, by omega⟩]
      simp
    have h1 : mem_load (mem_store m a (k + 1) v) (a + 1) k
        = mem_load (mem_store m (a + 1) k (v / 256)) (a + 1) k := by
      apply mem_load_congr
      intro x hx1 hx2
      unfold mem_store
      rw [if_pos ⟨by omega, by omega⟩, if_pos ⟨hx1, hx2⟩]
      have : x - a = (x - (a + 1)) + 1 := by omega
      rw [this, Nat.pow_succ, Nat.mul_comm, Nat.div_div_eq_div_mul]
    rw [h0, h1, ih, Nat.mod_mod, Nat.pow_succ, Nat.mul_comm (256 ^ k) 256, Nat.mod_mul]

theorem mem_load_store_disjoint (m : Nat → Nat) (a w v b k : Nat)
    (h : b + k ≤ a ∨ a + w ≤ b) :
    mem_load (mem_store m a w v) b k = mem_load m b k := by
  apply mem_load_congr
  intro x h1 h2
  exact mem_store_outside m a w v x (by omega)

/-- Descriptor `i` ends before descriptor `n` starts when `i < n`. -/
theorem slot_before (S i n : Nat) (h : i < n) : i * S + S ≤ n * S := by
  have := Nat.mul_le_mul_right S (Nat.succ_le_of_lt h)
  rw [Nat.succ_mul] at this
  exact this

/-! ### The transmit loop -/

theorem tx_fill_mem_outside (cfg : Cfg) (b p x : Nat) (m : Nat → Nat) : ∀ (n : Nat),
    (∀ i, i < n → x < field_addr b cfg.sizeof_tx_desc i cfg.tx_buffer1 ∨
      field_addr b cfg.sizeof_tx_desc i cfg.tx_buffer1 + cfg.tx_buffer1.width ≤ x) →
    tx_fill_mem cfg b p n m x = m x := by
  intro n
  induction n with
  | zero => intro _; rfl
  | succ n ih =>
    intro h
    rw [tx_fill_mem, mem_store_outside _ _ _ _ _ (h n (by omega))]
    exact ih (fun i hi => h i (by omega))

theorem tx_fill_mem_load (cfg : Cfg) (hl : TxLayout cfg) (b p i : Nat) (m : Nat → Nat) :
    ∀ (n : Nat), i < n →
    mem_load (tx_fill_mem cfg b p n m) (field_addr b cfg.sizeof_tx_desc i cfg.tx_buffer1)
      cfg.tx_buffer1.width = u32 (p + i * cfg.sizeof_netpacket) % 256 ^ cfg.tx_buffer1.width := by
  intro n
  induction n with
  | zero => intro h; omega
  | succ n ih =>
    intro h
    rw [tx_fill_mem]
    by_cases hi : i = n
    · subst hi
      exact mem_load_store _ _ _ _
    · have hlt : i < n := by omega
      have hs := slot_before cfg.sizeof_tx_desc i n hlt
      have hin := hl.buffer1_in
      rw [mem_load_store_disjoint _ _ _ _ _ _ (by unfold field_addr; omega)]
      exact ih hlt

/-! ### The receive loop -/

theorem rx_fill_mem_outside (cfg : Cfg) (hl : RxLayout cfg) (b p x : Nat) (m : Nat → Nat) :
    ∀ (n : Nat), (x < b ∨ b + n * cfg.sizeof_rx_desc ≤ x) →
    rx_fill_mem cfg b p n m x = m x := by
  intro n
  induction n with
  | zero => intro _; rfl
  | succ n ih =>
    intro h
    have h1 := hl.status_in
    have h2 := hl.buf1size_in
    have h3 := hl.buffer1_in
    rw [Nat.succ_mul] at h
    rw [rx_fill_mem, mem_store_outside _ _ _ _ _ (by unfold field_addr; omega),
      mem_store_outside _ _ _ _ _ (by unfold field_addr; omega),
      mem_store_outside _ _ _ _ _ (by unfold field_addr; omega)]
    exact ih (by omega)

theorem rx_fill_mem_load_other (cfg : Cfg) (b p i : Nat) (f : Field)
    (hf : f.off + f.width ≤ cfg.sizeof_rx_desc) (m : Nat → Nat) (n : Nat) (hi : i < n) :
    mem_load (rx_fill_mem cfg b p (n + 1) m) (field_addr b cfg.sizeof_rx_desc i f) f.width
      = mem_load (rx_fill_mem cfg b p n m) (field_addr b cfg.sizeof_rx_desc i f) f.width := by
  have hs := slot_before cfg.sizeof_rx_desc i n hi
  rw [rx_fill_mem, mem_load_store_disjoint _ _ _ _ _ _ (by unfold field_addr; omega),
    mem_load_store_disjoint _ _ _ _ _ _ (by unfold field_addr; omega),
    mem_load_store_disjoint _ _ _ _ _ _ (by unfold field_addr; omega)]

theorem rx_fill_mem_status (cfg : Cfg) (hl : RxLayout cfg) (b p i : Nat) (m : Nat → Nat) :
    ∀ (n : Nat), i < n →
    mem_load (rx_fill_mem cfg b p n m) (field_addr b cfg.sizeof_rx_desc i cfg.rx_status)
      cfg.rx_status.width = cfg.ETH_QUARK_RDST_OWN % 256 ^ cfg.rx_status.width := by
  intro n
  induction n with
  | zero => intro h; omega
  | succ n ih =>
    intro h
    by_cases hi : i = n
    · subst hi
      have h1 := hl.status_buf1size
      have h2 := hl.status_buffer1
      unfold Field.Disjoint at h1 h2
      rw [rx_fill_mem, mem_load_store_disjoint _ _ _ _ _ _ (by unfold field_addr; omega),
        mem_load_store_disjoint _ _ _ _ _ _ (by unfold field_addr; omega)]
      exact mem_load_store _ _ _ _
    · rw [rx_fill_mem_load_other cfg b p i _ hl.status_in m n (by omega)]
      exact ih (by omega)

theorem rx_fill_mem_buf1size (cfg : Cfg) (hl : RxLayout cfg) (b p i : Nat) (m : Nat → Nat) :
    ∀ (n : Nat), i < n →
    mem_load (rx_fill_mem cfg b p n m) (field_addr b cfg.sizeof_rx_desc i cfg.rx_buf1size)
      cfg.rx_buf1size.width = u32 cfg.sizeof_netpacket % 256 ^ cfg.rx_buf1size.width := by
  intro n
  induction n with
  | zero => intro h; omega
  | succ n ih =>
    intro h
    by_cases hi : i = n
    · subst hi
      have h2 := hl.buf1size_buffer1
      unfold Field.Disjoint at h2
      rw [rx_fill_mem, mem_load_store_disjoint _ _ _ _ _ _ (by unfold field_addr; omega)]
      exact mem_load_store _ _ _ _
    · rw [rx_fill_mem_load_other cfg b p i _ hl.buf1size_in m n (by omega)]
      exact ih (by omega)

theorem rx_fill_mem_buffer1 (cfg : Cfg) (hl : RxLayout cfg) (b p i : Nat) (m : Nat → Nat) :
    ∀ (n : Nat), i < n →
    mem_load (rx_fill_mem cfg b p n m) (field_addr b cfg.sizeof_rx_desc i cfg.rx_buffer1)
      cfg.rx_buffer1.width = u32 (p + i * cfg.sizeof_netpacket) % 256 ^ cfg.rx_buffer1.width := by
  intro n
  induction n with
  | zero => intro h; omega
  | succ n ih =>
    intro h
    by_cases hi : i = n
    · subst hi
      rw [rx_fill_mem]
      exact mem_load_store _ _ _ _
    · rw [rx_fill_mem_load_other cfg b p i _ hl.buffer1_in m n (by omega)]
      exact ih (by omega)

/-! ## Alignment -/

theorem and_fffffffc (y : Nat) (h : y < 2 ^ 32) : y &&& 0xFFFFFFFC = y / 4 * 4 := by
  have hc : (0xFFFFFFFC : Nat) = (2 ^ 30 - 1) <<< 2 := by decide
  have hr : y / 4 * 4 = (y >>> 2) <<< 2 := by
    rw [Nat.shiftRight_eq_div_pow, Nat.shiftLeft_eq]
  rw [hr, hc]
  apply Nat.eq_of_testBit_eq
  intro i
  simp only [Nat.testBit_and, Nat.testBit_shiftLeft, Nat.testBit_shiftRight,
    Nat.testBit_two_pow_sub_one]
  by_cases h2 : 2 ≤ i
  · by_cases h32 : i < 32
    · have : i - 2 < 30 := by omega
      simp [h2, this, show 2 + (i - 2) = i by omega]
    · have hy : y.testBit i = false :=
        Nat.testBit_lt_two_pow (Nat.lt_of_lt_of_le h (Nat.pow_le_pow_right (by omega) (by omega)))
      simp [hy, show 2 + (i - 2) = i by omega]
  · simp [h2]

theorem align4_eq (a : Nat) (h : a + 3 < 2 ^ 32) : align4 a = (a + 3) / 4 * 4 := by
  unfold align4 u32
  rw [Nat.mod_eq_of_lt h]
  exact and_fffffffc _ h

theorem align4_ge (a : Nat) (h : a + 3 < 2 ^ 32) : a ≤ align4 a := by
  rw [align4_eq a h]; omega

theorem align4_le (a : Nat) (h : a + 3 < 2 ^ 32) : align4 a ≤ a + 3 := by
  rw [align4_eq a h]; omega

theorem align4_dvd (a : Nat) (h : a + 3 < 2 ^ 32) : 4 ∣ align4 a := by
  rw [align4_eq a h]; exact Nat.dvd_mul_left 4 _

/-! ## The ring loops as memory and trace transformers -/

theorem tx_ring_fill_eq (cfg : Cfg) (b p : Nat) (w : World) : ∀ (n : Nat),
    tx_ring_fill cfg b p n w =
      { w with mem := tx_fill_mem cfg b p n w.mem,
               dev := { w.dev with trace := tx_fill_events cfg b p n ++ w.dev.trace } } := by
  intro n
  induction n with
  | zero => rfl
  | succ n ih =>
    unfold tx_ring_fill at ih ⊢
    rw [List.range_succ, List.foldl_append, ih]
    rfl

theorem rx_ring_fill_eq (cfg : Cfg) (b p : Nat) (w : World) : ∀ (n : Nat),
    rx_ring_fill cfg b p n w =
      { w with mem := rx_fill_mem cfg b p n w.mem,
               dev := { w.dev with trace := rx_fill_events cfg b p n ++ w.dev.trace } } := by
  intro n
  induction n with
  | zero => rfl
  | succ n ih =>
    unfold rx_ring_fill at ih ⊢
    rw [List.range_succ, List.foldl_append, ih]
    rfl

/-! ## Events of the register access layer and the link manager -/

theorem Dev.Grows.refl (d : Dev) : d.Grows d := ⟨[], by simp, by simp⟩

theorem Dev.Grows.trans {d d1 d2 : Dev} (h1 : d.Grows d1) (h2 : d1.Grows d2) : d.Grows d2 := by
  obtain ⟨a, ha, pa⟩ := h1
  obtain ⟨b, hb, pb⟩ := h2
  refine ⟨b ++ a, by rw [hb, ha]; simp, ?_⟩
  intro e he
  rcases List.mem_append.1 he with h | h
  · exact pb e h
  · exact pa e h

theorem Dev.Grows.one (d d1 : Dev) (e : Event) (ht : d1.trace = e :: d.trace)
    (he : is_access e = true) : d.Grows d1 :=
  ⟨[e], by simp [ht], by intro x hx; simp at hx; subst hx; exact he⟩

theorem Dev.grows_rd (d : Dev) (r : Reg) : d.Grows (d.rd r) := Dev.Grows.one _ _ _ rfl rfl

theorem Dev.grows_wr (d : Dev) (r : Reg) (v : Nat) : d.Grows (d.wr r v) :=
  Dev.Grows.one _ _ _ rfl rfl

theorem Dev.grows_delay (d : Dev) (us : Nat) : d.Grows (d.log (.delay us)) :=
  Dev.Grows.one _ _ _ rfl rfl

theorem Dev.grows_kprintf (d : Dev) (m : Msg) : d.Grows (d.log (.kprintf m)) :=
  Dev.Grows.one _ _ _ rfl rfl

theorem mii_ready_grows (cfg : Cfg) : ∀ (n : Nat) (d d1 : Dev),
    mii_ready cfg n d = some d1 → d.Grows d1 := by
  intro n
  induction n with
  | zero => intro d d1 h; simp [mii_ready] at h
  | succ n ih =>
    intro d d1 h
    rw [mii_ready] at h
    split at h
    · exact (d.grows_rd _).trans (ih _ _ h)
    · simp at h
      subst h
      exact d.grows_rd _

theorem wait_clear_grows (cfg : Cfg) (r : Reg) (mask : Nat) :
    ∀ (n retries : Nat) (d d1 : Dev) (b : Bool),
    wait_clear cfg r mask n retries d = some (b, d1) → d.Grows d1 := by
  intro n
  induction n with
  | zero => intro retries d d1 b h; simp [wait_clear] at h
  | succ n ih =>
    intro retries d d1 b h
    rw [wait_clear] at h
    split at h
    · split at h
      · simp at h
        obtain ⟨-, rfl⟩ := h
        exact (d.grows_rd _).trans (Dev.grows_delay _ _)
      · exact ((d.grows_rd _).trans (Dev.grows_delay _ _)).trans (ih _ _ _ _ h)
    · simp at h
      obtain ⟨-, rfl⟩ := h
      exact d.grows_rd _

theorem phy_read_grows (cfg : Cfg) (fuel : Nat) (d d1 : Dev) (regnum v : Nat)
    (h : eth_q_phy_read cfg fuel d regnum = some (v, d1)) : d.Grows d1 := by
  unfold eth_q_phy_read at h
  cases h1 : mii_ready cfg fuel d with
  | none => simp [h1] at h
  | some d0 =>
    simp only [h1] at h
    cases h2 : wait_clear cfg .gmiiar cfg.ETH_QUARK_GMIIAR_GB fuel 0
        (d0.wr .gmiiar (read_request cfg regnum)) with
    | none => simp [h2] at h
    | some r =>
      obtain ⟨b, d2⟩ := r
      have g := ((mii_ready_grows cfg fuel d d0 h1).trans (d0.grows_wr _ _)).trans
        (wait_clear_grows cfg _ _ fuel 0 _ d2 b h2)
      simp only [h2] at h
      cases b with
      | true =>
        simp at h
        obtain ⟨-, rfl⟩ := h
        exact g
      | false =>
        simp at h
        obtain ⟨-, rfl⟩ := h
        exact g.trans (d2.grows_rd _)

theorem phy_write_grows (cfg : Cfg) (fuel : Nat) (d d1 : Dev) (regnum value : Nat)
    (h : eth_q_phy_write cfg fuel d regnum value = some d1) : d.Grows d1 := by
  unfold eth_q_phy_write at h
  cases h1 : mii_ready cfg fuel d with
  | none => simp [h1] at h
  | some d0 =>
    rw [h1] at h
    dsimp only at h
    cases h2 : wait_clear cfg .gmiiar cfg.ETH_QUARK_GMIIAR_GB fuel 0
        ((d0.wr .gmiidr (value % 2 ^ 16)).wr .gmiiar (write_request cfg regnum)) with
    | none => rw [h2] at h; simp at h
    | some r =>
      obtain ⟨b, d2⟩ := r
      rw [h2] at h
      simp at h
      subst h
      exact (((mii_ready_grows cfg fuel d d0 h1).trans (d0.grows_wr _ _)).trans
        (Dev.grows_wr _ _ _)).trans (wait_clear_grows cfg _ _ fuel 0 _ d2 b h2)

theorem phy_reset_wait_grows (cfg : Cfg) (fuel : Nat) :
    ∀ (n retries : Nat) (d d1 : Dev) (b : Bool),
    phy_reset_wait cfg fuel n retries d = some (b, d1) → d.Grows d1 := by
  intro n
  induction n with
  | zero => intro retries d d1 b h; simp [phy_reset_wait] at h
  | succ n ih =>
    intro retries d d1 b h
    rw [phy_reset_wait] at h
    cases hr : eth_q_phy_read cfg fuel d 0 with
    | none => simp [hr] at h
    | some r =>
      obtain ⟨v, d2⟩ := r
      have g := phy_read_grows cfg fuel d d2 0 v hr
      simp only [hr] at h
      split at h
      · split at h
        · simp at h
          obtain ⟨-, rfl⟩ := h
          exact g.trans (Dev.grows_delay _ _)
        · exact (g.trans (Dev.grows_delay _ _)).trans (ih _ _ _ _ h)
      · simp at h
        obtain ⟨-, rfl⟩ := h
        exact g

theorem phy_wait_bit_grows (cfg : Cfg) (fuel mask : Nat) : ∀ (n : Nat) (d d1 : Dev),
    phy_wait_bit cfg fuel mask n d = some d1 → d.Grows d1 := by
  intro n
  induction n with
  | zero => intro d d1 h; simp [phy_wait_bit] at h
  | succ n ih =>
    intro d d1 h
    rw [phy_wait_bit] at h
    cases hr : eth_q_phy_read cfg fuel d 1 with
    | none => simp [hr] at h
    | some r =>
      obtain ⟨v, d2⟩ := r
      have g := phy_read_grows cfg fuel d d2 1 v hr
      simp only [hr] at h
      split at h
      · exact g.trans (ih _ _ h)
      · simp at h
        subst h
        exact g

theorem phy_link_up_grows (cfg : Cfg) (fuel : Nat) (d d1 : Dev) (rc : Int)
    (h : phy_link_up cfg fuel d = some (rc, d1)) : d.Grows d1 := by
  unfold phy_link_up at h
  cases hr : eth_q_phy_read cfg fuel d 1 with
  | none => simp [hr] at h
  | some r =>
    obtain ⟨v, d2⟩ := r
    have g := phy_read_grows cfg fuel d d2 1 v hr
    simp only [hr] at h
    split at h
    · cases ha : phy_wait_bit cfg fuel 0x0020 fuel d2 with
      | none => simp [ha] at h
      | some da =>
        simp only [ha] at h
        cases hl : phy_wait_bit cfg fuel 0x0004 fuel da with
        | none => simp [hl] at h
        | some dl =>
          simp only [hl] at h
          simp at h
          obtain ⟨-, rfl⟩ := h
          exact ((g.trans (phy_wait_bit_grows cfg fuel _ fuel d2 da ha)).trans
            (phy_wait_bit_grows cfg fuel _ fuel da dl hl)).trans (Dev.grows_kprintf _ _)
    · simp at h
      obtain ⟨-, rfl⟩ := h
      exact g.trans (Dev.grows_kprintf _ _)

theorem phy_reset_request_grows (cfg : Cfg) (fuel : Nat) (d d1 : Dev) (b : Bool)
    (h : phy_reset_request cfg fuel d = some (b, d1)) : d.Grows d1 := by
  unfold phy_reset_request at h
  cases hr : eth_q_phy_read cfg fuel d 0 with
  | none => simp [hr] at h
  | some r =>
    obtain ⟨v, d2⟩ := r
    simp only [hr] at h
    cases hw : eth_q_phy_write cfg fuel d2 0 (v ||| 0x8000) with
    | none => simp [hw] at h
    | some d3 =>
      simp only [hw] at h
      exact ((phy_read_grows cfg fuel d d2 0 v hr).trans
        (phy_write_grows cfg fuel d2 d3 0 _ hw)).trans
        (phy_reset_wait_grows cfg fuel fuel 0 d3 d1 b h)

theorem phy_reset_grows (cfg : Cfg) (fuel : Nat) (d d1 : Dev) (rc : Int)
    (h : eth_q_phy_reset cfg fuel d = some (rc, d1)) : d.Grows d1 := by
  unfold eth_q_phy_reset at h
  cases hr : phy_reset_request cfg fuel d with
  | none => simp [hr] at h
  | some r =>
    obtain ⟨b, d2⟩ := r
    have g := phy_reset_request_grows cfg fuel d d2 b hr
    simp only [hr] at h
    cases b with
    | true =>
      simp at h
      obtain ⟨-, rfl⟩ := h
      exact g
    | false =>
      simp only at h
      exact g.trans (phy_link_up_grows cfg fuel d2 d1 rc h)

/-! ## The parts of `eth_q_init` after the reset of the transceiver -/

theorem mem_tx_fill_events (cfg : Cfg) (b p : Nat) (e : Event) : ∀ (n : Nat),
    e ∈ tx_fill_events cfg b p n ↔
      ∃ i, i < n ∧ e = Event.store (field_addr b cfg.sizeof_tx_desc i cfg.tx_buffer1)
        cfg.tx_buffer1.width (u32 (p + i * cfg.sizeof_netpacket)) := by
  intro n
  induction n with
  | zero => simp [tx_fill_events]
  | succ n ih =>
    rw [tx_fill_events, List.mem_cons, ih]
    constructor
    · rintro (h | ⟨i, hi, h⟩)
      · exact ⟨n, by omega, h⟩
      · exact ⟨i, by omega, h⟩
    · rintro ⟨i, hi, h⟩
      by_cases hn : i = n
      · subst hn; exact Or.inl h
      · exact Or.inr ⟨i, by omega, h⟩

theorem mem_rx_fill_events (cfg : Cfg) (b p : Nat) (e : Event) : ∀ (n : Nat),
    e ∈ rx_fill_events cfg b p n ↔
      ∃ i, i < n ∧
        (e = Event.store (field_addr b cfg.sizeof_rx_desc i cfg.rx_buffer1)
          cfg.rx_buffer1.width (u32 (p + i * cfg.sizeof_netpacket)) ∨
         e = Event.store (field_addr b cfg.sizeof_rx_desc i cfg.rx_buf1size)
          cfg.rx_buf1size.width (u32 cfg.sizeof_netpacket) ∨
         e = Event.store (field_addr b cfg.sizeof_rx_desc i cfg.rx_status)
          cfg.rx_status.width cfg.ETH_QUARK_RDST_OWN) := by
  intro n
  induction n with
  | zero => simp [rx_fill_events]
  | succ n ih =>
    rw [rx_fill_events, List.mem_cons, List.mem_cons, List.mem_cons, ih]
    constructor
    · rintro (h | h | h | ⟨i, hi, h⟩)
      · exact ⟨n, by omega, Or.inl h⟩
      · exact ⟨n, by omega, Or.inr (Or.inl h)⟩
      · exact ⟨n, by omega, Or.inr (Or.inr h)⟩
      · exact ⟨i, by omega, h⟩
    · rintro ⟨i, hi, h⟩
      by_cases hn : i = n
      · subst hn
        rcases h with h | h | h
        · exact Or.inl h
        · exact Or.inr (Or.inl h)
        · exact Or.inr (Or.inr (Or.inl h))
      · exact Or.inr (Or.inr (Or.inr ⟨i, by omega, h⟩))

theorem World.alloc_shift (w w1 : World) (j k : Nat) (h1 : w1.getmem_ret = w.getmem_ret)
    (h2 : w1.getmem_calls = w.getmem_calls + j) : w1.alloc k = w.alloc (j + k) := by
  simp [World.alloc, h1, h2, Nat.add_assoc]

theorem World.sem_shift (w w1 : World) (j k : Nat) (h1 : w1.semcreate_ret = w.semcreate_ret)
    (h2 : w1.semcreate_calls = w.semcreate_calls + j) : w1.sem k = w.sem (j + k) := by
  simp [World.sem, h1, h2, Nat.add_assoc]

/-- Lines 165-190 touch neither memory nor the allocator, and none of their
events is a call of `semcreate` or the start of the DMA processes. -/
theorem init_mac_frame (cfg : Cfg) (dp : Dentry) (w : World) :
    (init_mac cfg dp w).mem = w.mem ∧
    (init_mac cfg dp w).getmem_ret = w.getmem_ret ∧
    (init_mac cfg dp w).getmem_calls = w.getmem_calls ∧
    (init_mac cfg dp w).semcreate_ret = w.semcreate_ret ∧
    (init_mac cfg dp w).semcreate_calls = w.semcreate_calls ∧
    ∃ new, (init_mac cfg dp w).dev.trace = new ++ w.dev.trace ∧
      Event.evec dp.dvirq (u32 dp.dvintr) ∈ new ∧
      ∀ e, e ∈ new → is_start cfg e = false ∧ is_semcreate e = false := by
  refine ⟨rfl, rfl, rfl, rfl, rfl, ?_⟩
  refine ⟨[_, _, _, _, _, _, _, _], rfl, by simp, ?_⟩
  intro e he
  simp only [List.mem_cons, List.mem_singleton, List.not_mem_nil, or_false] at he
  rcases he with rfl | rfl | rfl | rfl | rfl | rfl | rfl | rfl <;>
    exact ⟨rfl, rfl⟩

/-- The world in which lines 192-227 end without failure. -/
theorem init_tx_ring_next (cfg : Cfg) (w w1 : World) (h : init_tx_ring cfg w = .next w1) :
    w.sem 0 ≠ cfg.SYSERR ∧
    w1.mem = mem_after_tx cfg w ∧
    w1.eth = { w.eth with txRingSize := cfg.ETH_QUARK_TX_RING_SIZE, txRing := align4 (w.alloc 0),
                          txBufs := align4 (w.alloc 1), osem := w.sem 0 } ∧
    w1.getmem_ret = w.getmem_ret ∧ w1.getmem_calls = w.getmem_calls + 2 ∧
    w1.semcreate_ret = w.semcreate_ret ∧ w1.semcreate_calls = w.semcreate_calls + 1 ∧
    w1.dev.trace = tx_events cfg w ++ w.dev.trace := by
  unfold init_tx_ring at h
  simp only [tx_ring_fill_eq] at h
  split at h
  · cases h
  · split at h
    · cases h
    · split at h
      · cases h
      · rename_i h1 h2 h3
        cases h
        refine ⟨h3, rfl, rfl, rfl, rfl, rfl, rfl, ?_⟩
        simp [tx_events, World.semcreate, World.getmem, World.memset, World.sem, World.alloc,
          World.getmem_val, World.semcreate_val, tx_ring_bytes, tx_bufs_bytes]

/-- When lines 192-227 fail, none of their events starts the DMA processes. -/
theorem init_tx_ring_fail (cfg : Cfg) (w w1 : World) (h : init_tx_ring cfg w = .fail w1) :
    ∃ new, w1.dev.trace = new ++ w.dev.trace ∧ ∀ e, e ∈ new → is_start cfg e = false := by
  unfold init_tx_ring at h
  simp only [tx_ring_fill_eq] at h
  split at h
  · cases h
    exact ⟨[_], rfl, by intro e he; simp at he; subst he; rfl⟩
  · split at h
    · cases h
      refine ⟨[_, _, _], rfl, ?_⟩
      intro e he
      simp only [List.mem_cons, List.mem_singleton, List.not_mem_nil, or_false] at he
      rcases he with rfl | rfl | rfl <;> rfl
    · split at h
      · cases h
        refine ⟨tx_events cfg w, ?_, ?_⟩
        · simp [tx_events, World.semcreate, World.getmem, World.memset, World.sem, World.alloc,
            World.getmem_val, World.semcreate_val, tx_ring_bytes, tx_bufs_bytes]
        · intro e he
          simp only [tx_events, List.mem_cons, List.mem_append, List.mem_singleton,
            List.not_mem_nil, or_false, mem_tx_fill_events] at he
          rcases he with rfl | ⟨i, -, rfl⟩ | rfl | rfl | rfl <;> rfl
      · cases h

/-- The world in which lines 229-258 end without failure. -/
theorem init_rx_alloc_next (cfg : Cfg) (w w1 : World) (h : init_rx_alloc cfg w = .next w1) :
    w1.mem = mem_set w.mem (w.alloc 0) 0 (rx_ring_bytes cfg) ∧
    w1.eth = { w.eth with rxRingSize := cfg.ETH_QUARK_RX_RING_SIZE, rxRing := align4 (w.alloc 0),
                          rxBufs := align4 (w.alloc 1) } ∧
    w1.getmem_ret = w.getmem_ret ∧ w1.getmem_calls = w.getmem_calls + 2 ∧
    w1.semcreate_ret = w.semcreate_ret ∧ w1.semcreate_calls = w.semcreate_calls ∧
    w1.dev.trace = Event.getmem (rx_bufs_bytes cfg) (w.alloc 1) ::
      Event.memset (w.alloc 0) 0 (rx_ring_bytes cfg) ::
      Event.getmem (rx_ring_bytes cfg) (w.alloc 0) :: w.dev.trace := by
  unfold init_rx_alloc at h
  dsimp only at h
  split at h
  · cases h
  · split at h
    · cases h
    · cases h
      refine ⟨rfl, rfl, rfl, rfl, rfl, rfl, ?_⟩
      simp [World.getmem, World.memset, World.alloc, World.getmem_val, rx_ring_bytes,
        rx_bufs_bytes]

/-- When lines 229-258 fail, none of their events starts the DMA processes. -/
theorem init_rx_alloc_fail (cfg : Cfg) (w w1 : World) (h : init_rx_alloc cfg w = .fail w1) :
    ∃ new, w1.dev.trace = new ++ w.dev.trace ∧ ∀ e, e ∈ new → is_start cfg e = false := by
  unfold init_rx_alloc at h
  dsimp only at h
  split at h
  · cases h
    exact ⟨[_], rfl, by intro e he; simp at he; subst he; rfl⟩
  · split at h
    · cases h
      refine ⟨[_, _, _], rfl, ?_⟩
      intro e he
      simp only [List.mem_cons, List.mem_singleton, List.not_mem_nil, or_false] at he
      rcases he with rfl | rfl | rfl <;> rfl
    · cases h

/-- The world after lines 260-269. -/
theorem init_rx_descs_spec (cfg : Cfg) (w : World) :
    (init_rx_descs cfg w).mem =
      mem_store (rx_fill_mem cfg w.eth.rxRing w.eth.rxBufs w.eth.rxRingSize w.mem)
        (field_addr w.eth.rxRing cfg.sizeof_rx_desc (w.eth.rxRingSize - 1) cfg.rx_buf1size)
        cfg.rx_buf1size.width
        (mem_load (rx_fill_mem cfg w.eth.rxRing w.eth.rxBufs w.eth.rxRingSize w.mem)
          (field_addr w.eth.rxRing cfg.sizeof_rx_desc (w.eth.rxRingSize - 1) cfg.rx_buf1size)
          cfg.rx_buf1size.width ||| cfg.ETH_QUARK_RDCTL1_RER) ∧
    (init_rx_descs cfg w).eth = w.eth ∧
    (init_rx_descs cfg w).semcreate_ret = w.semcreate_ret ∧
    (init_rx_descs cfg w).semcreate_calls = w.semcreate_calls ∧
    (init_rx_descs cfg w).dev.trace =
      Event.store
        (field_addr w.eth.rxRing cfg.sizeof_rx_desc (w.eth.rxRingSize - 1) cfg.rx_buf1size)
        cfg.rx_buf1size.width
        (mem_load (rx_fill_mem cfg w.eth.rxRing w.eth.rxBufs w.eth.rxRingSize w.mem)
          (field_addr w.eth.rxRing cfg.sizeof_rx_desc (w.eth.rxRingSize - 1) cfg.rx_buf1size)
          cfg.rx_buf1size.width ||| cfg.ETH_QUARK_RDCTL1_RER) ::
      (rx_fill_events cfg w.eth.rxRing w.eth.rxBufs w.eth.rxRingSize ++ w.dev.trace) := by
  unfold init_rx_descs
  simp only [rx_ring_fill_eq]
  exact ⟨rfl, rfl, rfl, rfl, rfl⟩

/-- Lines 271-294: either `semcreate(0)` fails and nothing else happens, or the
registers are programmed and the DMA processes are started last. -/
theorem init_start_spec (cfg : Cfg) (w : World) :
    (w.sem 0 = cfg.SYSERR ∧ (init_start cfg w).1 = cfg.SYSERR ∧
      (init_start cfg w).2.dev.trace = Event.semcreate 0 (w.sem 0) :: w.dev.trace) ∨
    (w.sem 0 ≠ cfg.SYSERR ∧ (init_start cfg w).1 = cfg.OK ∧
      (init_start cfg w).2.mem = w.mem ∧
      (init_start cfg w).2.eth = { w.eth with isem := w.sem 0 } ∧
      ∃ old_maccr old_omr, (init_start cfg w).2.dev.trace =
        Event.orw .omr (cfg.ETH_QUARK_OMR_ST ||| cfg.ETH_QUARK_OMR_SR) old_omr ::
        Event.orw .maccr (cfg.ETH_QUARK_MACCR_TE ||| cfg.ETH_QUARK_MACCR_RE) old_maccr ::
        Event.wr .rdla (u32 w.eth.rxRing) :: Event.wr .tdla (u32 w.eth.txRing) ::
        Event.wr .ier
          (cfg.ETH_QUARK_IER_NIE ||| cfg.ETH_QUARK_IER_TIE ||| cfg.ETH_QUARK_IER_RIE) ::
        Event.semcreate 0 (w.sem 0) :: w.dev.trace) := by
  unfold init_start
  dsimp only
  split
  · rename_i h
    exact Or.inl ⟨h, rfl, rfl⟩
  · rename_i h
    exact Or.inr ⟨h, rfl, rfl, rfl, _, _, rfl⟩

/-! ## The descriptor rings as a whole -/

theorem init_rings_rc (cfg : Cfg) (dp : Dentry) (w : World) :
    (init_rings cfg dp w).1 = cfg.OK ∨ (init_rings cfg dp w).1 = cfg.SYSERR := by
  unfold init_rings
  cases init_tx_ring cfg (init_mac cfg dp w) with
  | fail w1 => exact Or.inr rfl
  | next w1 =>
    dsimp only
    cases init_rx_alloc cfg w1 with
    | fail w2 => exact Or.inr rfl
    | next w2 =>
      dsimp only
      rcases init_start_spec cfg (init_rx_descs cfg w2) with ⟨-, h, -⟩ | ⟨-, h, -⟩
      · exact Or.inr h
      · exact Or.inl h

/-- The world in which lines 165-294 end with `return OK`. -/
theorem init_rings_ok (cfg : Cfg) (dp : Dentry) (w w4 : World) (hne : cfg.OK ≠ cfg.SYSERR)
    (h : init_rings cfg dp w = (cfg.OK, w4)) :
    w.sem 0 ≠ cfg.SYSERR ∧ w.sem 1 ≠ cfg.SYSERR ∧
    w4.mem = mem_final cfg w ∧
    w4.eth.txRingSize = cfg.ETH_QUARK_TX_RING_SIZE ∧
    w4.eth.rxRingSize = cfg.ETH_QUARK_RX_RING_SIZE ∧
    w4.eth.txRing = align4 (w.alloc 0) ∧ w4.eth.txBufs = align4 (w.alloc 1) ∧
    w4.eth.rxRing = align4 (w.alloc 2) ∧ w4.eth.rxBufs = align4 (w.alloc 3) ∧
    w4.eth.osem = w.sem 0 ∧ w4.eth.isem = w.sem 1 ∧
    ∃ mac old_maccr old_omr,
      w4.dev.trace = start_events cfg w old_maccr old_omr ++
        (Event.semcreate 0 (w.sem 1) :: (rx_events cfg w ++ (tx_events cfg w ++
          (mac ++ w.dev.trace)))) ∧
      Event.evec dp.dvirq (u32 dp.dvintr) ∈ mac ∧
      ∀ e, e ∈ mac → is_start cfg e = false ∧ is_semcreate e = false := by
  unfold init_rings at h
  cases h1 : init_tx_ring cfg (init_mac cfg dp w) with
  | fail w1 =>
    rw [h1] at h
    simp only [Prod.mk.injEq] at h
    exact absurd h.1.symm hne
  | next w1 =>
    rw [h1] at h
    dsimp only at h
    cases h2 : init_rx_alloc cfg w1 with
    | fail w2 =>
      rw [h2] at h
      simp only [Prod.mk.injEq] at h
      exact absurd h.1.symm hne
    | next w2 =>
      rw [h2] at h
      dsimp only at h
      obtain ⟨t1, t2, t3, t4, t5, t6, t7, t8⟩ := init_tx_ring_next cfg _ w1 h1
      obtain ⟨r1, r2, r3, r4, r5, r6, r7⟩ := init_rx_alloc_next cfg w1 w2 h2
      obtain ⟨d1, d2, d3, d4, d5⟩ := init_rx_descs_spec cfg w2
      obtain ⟨-, -, -, -, -, mac, m1, m2, m3⟩ := init_mac_frame cfg dp w
      have am : ∀ k, (init_mac cfg dp w).alloc k = w.alloc k := fun _ => rfl
      have sm : ∀ k, (init_mac cfg dp w).sem k = w.sem k := fun _ => rfl
      have mm : mem_after_tx cfg (init_mac cfg dp w) = mem_after_tx cfg w := rfl
      have em : tx_events cfg (init_mac cfg dp w) = tx_events cfg w := rfl
      rw [sm] at t1
      rw [mm] at t2
      rw [am, am, sm] at t3
      rw [em] at t8
      have a0 : w1.alloc 0 = w.alloc 2 := World.alloc_shift (init_mac cfg dp w) w1 2 0 t4 t5
      have a1 : w1.alloc 1 = w.alloc 3 := World.alloc_shift (init_mac cfg dp w) w1 2 1 t4 t5
      have s0 : w2.sem 0 = w.sem 1 := by
        rw [World.sem_shift w1 w2 0 0 r5 (by rw [r6]; rfl),
          World.sem_shift (init_mac cfg dp w) w1 1 0 t6 t7]
        rfl
      have e2 : (init_rx_descs cfg w2).sem 0 = w.sem 1 := by
        rw [World.sem_shift w2 _ 0 0 d3 (by rw [d4]; rfl)]
        exact s0
      rcases init_start_spec cfg (init_rx_descs cfg w2) with ⟨-, hs, -⟩ | ⟨hs0, -, hs1, hs2, o1, o2, hs3⟩
      · rw [h] at hs
        exact absurd hs hne
      · have hw : w4 = (init_start cfg (init_rx_descs cfg w2)).2 := by rw [h]
        rw [e2] at hs0 hs2 hs3
        have hrx : w2.eth.rxRing = align4 (w.alloc 2) := by rw [r2, a0]
        have hrb : w2.eth.rxBufs = align4 (w.alloc 3) := by rw [r2, a1]
        have hrn : w2.eth.rxRingSize = cfg.ETH_QUARK_RX_RING_SIZE := by rw [r2]
        have hmem : w2.mem = mem_before_rx cfg w := by
          rw [r1, t2, a0]; rfl
        refine ⟨t1, hs0, ?_, ?_, ?_, ?_, ?_, ?_, ?_, ?_, ?_, mac, o1, o2, ?_, m2, m3⟩
        · rw [hw, hs1, d1, hrx, hrb, hrn, hmem]; rfl
        · rw [hw, hs2, d2, r2, t3]
        · rw [hw, hs2, d2, r2]
        · rw [hw, hs2, d2, r2, t3]
        · rw [hw, hs2, d2, r2, t3]
        · rw [hw, hs2, d2]; exact hrx
        · rw [hw, hs2, d2]; exact hrb
        · rw [hw, hs2, d2, r2, t3]
        · rw [hw, hs2]
        · rw [hw, hs3, d5, d2, hrx, hrb, hrn, hmem, r7, a0, a1, t8, m1, r2, t3]
          simp [start_events, rx_events, tx_events, rer_addr, rer_value, mem_after_rx]

/-- When lines 165-294 end with `return SYSERR`, the DMA processes were not started. -/
theorem init_rings_syserr (cfg : Cfg) (dp : Dentry) (w w4 : World) (rc : Int)
    (h : init_rings cfg dp w = (rc, w4)) (hrc : rc ≠ cfg.OK) :
    ∃ new, w4.dev.trace = new ++ w.dev.trace ∧ ∀ e, e ∈ new → is_start cfg e = false := by
  obtain ⟨-, -, -, -, -, mac, m1, -, m3⟩ := init_mac_frame cfg dp w
  unfold init_rings at h
  cases h1 : init_tx_ring cfg (init_mac cfg dp w) with
  | fail w1 =>
    rw [h1] at h
    simp only [Prod.mk.injEq] at h
    obtain ⟨new, hn, hp⟩ := init_tx_ring_fail cfg _ w1 h1
    refine ⟨new ++ mac, by rw [← h.2, hn, m1]; simp, ?_⟩
    intro e he
    rcases List.mem_append.1 he with h' | h'
    · exact hp e h'
    · exact (m3 e h').1
  | next w1 =>
    rw [h1] at h
    dsimp only at h
    obtain ⟨-, -, -, -, -, -, -, t8⟩ := init_tx_ring_next cfg _ w1 h1
    have htx : ∀ e, e ∈ tx_events cfg (init_mac cfg dp w) → is_start cfg e = false := by
      intro e he
      simp only [tx_events, List.mem_cons, List.mem_append, List.mem_singleton,
        List.not_mem_nil, or_false, mem_tx_fill_events] at he
      rcases he with rfl | ⟨i, -, rfl⟩ | rfl | rfl | rfl <;> rfl
    cases h2 : init_rx_alloc cfg w1 with
    | fail w2 =>
      rw [h2] at h
      simp only [Prod.mk.injEq] at h
      obtain ⟨new, hn, hp⟩ := init_rx_alloc_fail cfg w1 w2 h2
      refine ⟨new ++ (tx_events cfg (init_mac cfg dp w) ++ mac),
        by rw [← h.2, hn, t8, m1]; simp, ?_⟩
      intro e he
      rcases List.mem_append.1 he with h' | h'
      · exact hp e h'
      · rcases List.mem_append.1 h' with h'' | h''
        · exact htx e h''
        · exact (m3 e h'').1
    | next w2 =>
      rw [h2] at h
      dsimp only at h
      obtain ⟨-, -, -, -, -, -, r7⟩ := init_rx_alloc_next cfg w1 w2 h2
      obtain ⟨-, -, -, -, d5⟩ := init_rx_descs_spec cfg w2
      rcases init_start_spec cfg (init_rx_descs cfg w2) with ⟨-, -, hs⟩ | ⟨-, hs, -⟩
      · rw [h] at hs
        dsimp only at hs
        refine ⟨Event.semcreate 0 ((init_rx_descs cfg w2).sem 0) ::
          Event.store
            (field_addr w2.eth.rxRing cfg.sizeof_rx_desc (w2.eth.rxRingSize - 1) cfg.rx_buf1size)
            cfg.rx_buf1size.width
            (mem_load (rx_fill_mem cfg w2.eth.rxRing w2.eth.rxBufs w2.eth.rxRingSize w2.mem)
              (field_addr w2.eth.rxRing cfg.sizeof_rx_desc (w2.eth.rxRingSize - 1)
                cfg.rx_buf1size) cfg.rx_buf1size.width ||| cfg.ETH_QUARK_RDCTL1_RER) ::
          (rx_fill_events cfg w2.eth.rxRing w2.eth.rxBufs w2.eth.rxRingSize
            ++ ([Event.getmem (rx_bufs_bytes cfg) (w1.alloc 1),
                 Event.memset (w1.alloc 0) 0 (rx_ring_bytes cfg),
                 Event.getmem (rx_ring_bytes cfg) (w1.alloc 0)] ++
              (tx_events cfg (init_mac cfg dp w) ++ mac))),
          by rw [hs, d5, r7, t8, m1]; simp, ?_⟩
        intro e he
        simp only [List.mem_cons, List.mem_append, List.mem_singleton, List.not_mem_nil,
          or_false, mem_rx_fill_events] at he
        rcases he with rfl | rfl | ⟨i, -, rfl | rfl | rfl⟩ | (rfl | rfl | rfl) | h' | h'
        · rfl
        · rfl
        · rfl
        · rfl
        · rfl
        · rfl
        · rfl
        · rfl
        · exact htx e h'
        · exact (m3 e h').1
      · rw [h] at hs
        exact absurd hs hrc

/-! ## `eth_q_init` as a whole -/

theorem is_access_early (cfg : Cfg) (e : Event) (h : is_access e = true) :
    is_start cfg e = false ∧ is_semcreate e = false := by
  cases e <;> simp_all [is_access, is_start, is_semcreate]

/-- A run of `eth_q_init` either ends in the MAC reset loop with `SYSERR`, or
reaches line 165 in a world whose memory and allocator are untouched and
continues with the ring initialisation. -/
theorem eth_q_init_cases (cfg : Cfg) (fuel : Nat) (dp : Dentry) (w w1 : World) (rc : Int)
    (hst : cfg.ETH_QUARK_OMR_ST ||| cfg.ETH_QUARK_OMR_SR ≠ 0x00200000)
    (h : eth_q_init cfg fuel dp w = some (rc, w1)) :
    (rc = cfg.SYSERR ∧ ∃ new, w1.dev.trace = new ++ w.dev.trace ∧
      ∀ e, e ∈ new → is_start cfg e = false) ∨
    (∃ w0 pre, init_rings cfg dp w0 = (rc, w1) ∧ w0.mem = w.mem ∧
      w0.getmem_ret = w.getmem_ret ∧ w0.getmem_calls = w.getmem_calls ∧
      w0.semcreate_ret = w.semcreate_ret ∧ w0.semcreate_calls = w.semcreate_calls ∧
      w0.dev.trace = pre ++ w.dev.trace ∧
      ∀ e, e ∈ pre → is_start cfg e = false ∧ is_semcreate e = false) := by
  unfold eth_q_init at h
  dsimp only at h
  cases hm : wait_clear cfg .bmr 0x00000001 fuel 0
      ((w.dev.log (.pci 0x4 0x0006)).orw .bmr 0x00000001) with
  | none => rw [hm] at h; simp at h
  | some r =>
    obtain ⟨b, d2⟩ := r
    obtain ⟨p1, hp1, hq1⟩ := wait_clear_grows cfg _ _ fuel 0 _ d2 b hm
    rw [hm] at h
    cases b with
    | true =>
      simp only [Option.some.injEq, Prod.mk.injEq] at h
      obtain ⟨rfl, rfl⟩ := h
      left
      refine ⟨rfl, p1 ++ [Event.orw .bmr 0x00000001 ((w.dev.log (.pci 0x4 0x0006)).val .bmr),
        Event.pci 0x4 0x0006], by simp [hp1], ?_⟩
      intro e he
      rcases List.mem_append.1 he with h' | h'
      · exact (is_access_early cfg e (hq1 e h')).1
      · simp only [List.mem_cons, List.mem_singleton, List.not_mem_nil, or_false] at h'
        rcases h' with rfl | rfl <;> rfl
    | false =>
      dsimp only at h
      cases hr : eth_q_phy_reset cfg fuel ((d2.orw .bmr 0x00010000).orw .omr 0x00200000) with
      | none => rw [hr] at h; simp at h
      | some r2 =>
        obtain ⟨rc2, d3⟩ := r2
        obtain ⟨p2, hp2, hq2⟩ := phy_reset_grows cfg fuel _ d3 rc2 hr
        rw [hr] at h
        simp only [Option.some.injEq] at h
        right
        refine ⟨_, p2 ++ ([Event.orw .omr 0x00200000 ((d2.orw .bmr 0x00010000).val .omr),
          Event.orw .bmr 0x00010000 (d2.val .bmr)] ++ (p1 ++
          [Event.orw .bmr 0x00000001 ((w.dev.log (.pci 0x4 0x0006)).val .bmr),
           Event.pci 0x4 0x0006])), h, rfl, rfl, rfl, rfl, rfl, by simp [hp2, hp1], ?_⟩
        intro e he
        simp only [List.mem_cons, List.mem_append, List.mem_singleton, List.not_mem_nil,
          or_false] at he
        rcases he with h' | (rfl | rfl) | h' | rfl | rfl
        · exact is_access_early cfg e (hq2 e h')
        · refine ⟨?_, rfl⟩
          simp only [is_start, decide_eq_false_iff_not]
          exact fun hh => hst hh.symm
        · exact ⟨rfl, rfl⟩
        · exact is_access_early cfg e (hq1 e h')
        · exact ⟨rfl, rfl⟩
        · exact ⟨rfl, rfl⟩

/-- `eth_q_init` returns as soon as its two hardware waits do: the MAC reset
loop and, when that loop saw the reset bit clear, `eth_q_phy_reset`.  All the
rest of the function is free of waits on the hardware. -/
theorem eth_q_init_returns (cfg : Cfg) (fuel : Nat) (dp : Dentry) (w : World) (b : Bool)
    (d2 : Dev)
    (hm : wait_clear cfg .bmr 0x00000001 fuel 0
      ((w.dev.log (.pci 0x4 0x0006)).orw .bmr 0x00000001) = some (b, d2))
    (hp : b = false → ∃ r, eth_q_phy_reset cfg fuel
      ((d2.orw .bmr 0x00010000).orw .omr 0x00200000) = some r) :
    ∃ r, eth_q_init cfg fuel dp w = some r := by
  unfold eth_q_init
  dsimp only
  rw [hm]
  cases b with
  | true => exact ⟨_, rfl⟩
  | false =>
    obtain ⟨r, hr⟩ := hp rfl
    dsimp only
    rw [hr]
    exact ⟨_, rfl⟩

/-! ## Geometry of the rings in memory -/

/-- The transmit descriptor block: its rounded start and its size. -/
theorem AllocOK.tx_geom {cfg : Cfg} {w : World} (ha : AllocOK cfg w) (hl : TxLayout cfg) :
    w.alloc 0 ≤ align4 (w.alloc 0) ∧ align4 (w.alloc 0) ≤ w.alloc 0 + 3 ∧
    4 ∣ align4 (w.alloc 0) ∧ align4 (w.alloc 0) < 2 ^ 32 ∧
    tx_ring_bytes cfg
      = cfg.ETH_QUARK_TX_RING_SIZE * cfg.sizeof_tx_desc + cfg.sizeof_tx_desc ∧
    w.alloc 0 = w.getmem_ret w.getmem_calls := by
  have h1 := ha.tx_ring
  have h2 := hl.buffer1_in
  have h3 := hl.buffer1_width
  have hm : cfg.sizeof_tx_desc * (cfg.ETH_QUARK_TX_RING_SIZE + 1)
      = cfg.ETH_QUARK_TX_RING_SIZE * cfg.sizeof_tx_desc + cfg.sizeof_tx_desc := by
    rw [Nat.mul_succ, Nat.mul_comm]
  have hpos : 0 ≤ cfg.ETH_QUARK_TX_RING_SIZE * cfg.sizeof_tx_desc := Nat.zero_le _
  have ha0 : w.alloc 0 = w.getmem_ret w.getmem_calls := by
    unfold World.alloc u32
    rw [Nat.add_zero, Nat.mod_eq_of_lt (by omega)]
  have hlt : w.alloc 0 + 3 < 2 ^ 32 := by rw [ha0]; omega
  refine ⟨align4_ge _ hlt, align4_le _ hlt, align4_dvd _ hlt, ?_, ?_, ha0⟩
  · have := align4_le _ hlt
    omega
  · unfold tx_ring_bytes u32
    rw [Nat.mod_eq_of_lt (by omega), hm]

/-- The receive descriptor block: its rounded start and its size. -/
theorem AllocOK.rx_geom {cfg : Cfg} {w : World} (ha : AllocOK cfg w) (hl : RxLayout cfg) :
    w.alloc 2 ≤ align4 (w.alloc 2) ∧ align4 (w.alloc 2) ≤ w.alloc 2 + 3 ∧
    4 ∣ align4 (w.alloc 2) ∧ align4 (w.alloc 2) < 2 ^ 32 ∧
    rx_ring_bytes cfg
      = cfg.ETH_QUARK_RX_RING_SIZE * cfg.sizeof_rx_desc + cfg.sizeof_rx_desc ∧
    w.alloc 2 = w.getmem_ret (w.getmem_calls + 2) := by
  have h1 := ha.rx_ring
  have h2 := hl.buffer1_in
  have h3 := hl.buffer1_width
  have hm : cfg.sizeof_rx_desc * (cfg.ETH_QUARK_RX_RING_SIZE + 1)
      = cfg.ETH_QUARK_RX_RING_SIZE * cfg.sizeof_rx_desc + cfg.sizeof_rx_desc := by
    rw [Nat.mul_succ, Nat.mul_comm]
  have ha0 : w.alloc 2 = w.getmem_ret (w.getmem_calls + 2) := by
    unfold World.alloc u32
    rw [Nat.mod_eq_of_lt (by omega)]
  have hlt : w.alloc 2 + 3 < 2 ^ 32 := by rw [ha0]; omega
  refine ⟨align4_ge _ hlt, align4_le _ hlt, align4_dvd _ hlt, ?_, ?_, ha0⟩
  · have := align4_le _ hlt
    omega
  · unfold rx_ring_bytes u32
    rw [Nat.mod_eq_of_lt (by omega), hm]

/-- A buffer pool: its rounded start, and that the address of every buffer of
the ring fits in 32 bits. -/
theorem bufs_geom (a sz n : Nat) (h : a + sz * (n + 1) < 2 ^ 32) (hsz : 4 ≤ sz) :
    u32 a ≤ align4 (u32 a) ∧ align4 (u32 a) ≤ u32 a + 3 ∧ 4 ∣ align4 (u32 a) ∧
    ∀ i, i < n → u32 (align4 (u32 a) + i * sz) = align4 (u32 a) + i * sz ∧
      align4 (u32 a) + i * sz < 2 ^ 32 := by
  have hm : sz * (n + 1) = n * sz + sz := by rw [Nat.mul_succ, Nat.mul_comm]
  have hu : u32 a = a := by unfold u32; rw [Nat.mod_eq_of_lt (by omega)]
  have hlt : u32 a + 3 < 2 ^ 32 := by rw [hu]; omega
  refine ⟨align4_ge _ hlt, align4_le _ hlt, align4_dvd _ hlt, ?_⟩
  intro i hi
  have h1 := align4_le _ hlt
  have h2 := slot_before sz i n hi
  have h3 : align4 (u32 a) + i * sz < 2 ^ 32 := by omega
  exact ⟨Nat.mod_eq_of_lt h3, h3⟩

/-- Every member of a transmit descriptor of the ring lies in the block that
`getmem` returned for the descriptors. -/
theorem tx_field_in_block {cfg : Cfg} {w : World} (ha : AllocOK cfg w) (hl : TxLayout cfg)
    (f : Field) (hf : f.off + f.width ≤ cfg.sizeof_tx_desc) (i : Nat)
    (hi : i < cfg.ETH_QUARK_TX_RING_SIZE) :
    w.alloc 0 ≤ field_addr (align4 (w.alloc 0)) cfg.sizeof_tx_desc i f ∧
    field_addr (align4 (w.alloc 0)) cfg.sizeof_tx_desc i f + f.width
      ≤ w.alloc 0 + tx_ring_bytes cfg := by
  obtain ⟨g1, g2, -, -, g5, -⟩ := ha.tx_geom hl
  have h2 := hl.buffer1_in
  have h3 := hl.buffer1_width
  have hs := slot_before cfg.sizeof_tx_desc i _ hi
  unfold field_addr
  rw [g5]
  omega

/-- Every member of a receive descriptor of the ring lies in the block that
`getmem` returned for the descriptors. -/
theorem rx_field_in_block {cfg : Cfg} {w : World} (ha : AllocOK cfg w) (hl : RxLayout cfg)
    (f : Field) (hf : f.off + f.width ≤ cfg.sizeof_rx_desc) (i : Nat)
    (hi : i < cfg.ETH_QUARK_RX_RING_SIZE) :
    w.alloc 2 ≤ field_addr (align4 (w.alloc 2)) cfg.sizeof_rx_desc i f ∧
    field_addr (align4 (w.alloc 2)) cfg.sizeof_rx_desc i f + f.width
      ≤ w.alloc 2 + rx_ring_bytes cfg := by
  obtain ⟨g1, g2, -, -, g5, -⟩ := ha.rx_geom hl
  have h2 := hl.buffer1_in
  have h3 := hl.buffer1_width
  have hs := slot_before cfg.sizeof_rx_desc i _ hi
  unfold field_addr
  rw [g5]
  omega

/-- The two descriptor blocks do not overlap. -/
theorem AllocOK.apart {cfg : Cfg} {w : World} (ha : AllocOK cfg w) (ht : TxLayout cfg)
    (hr : RxLayout cfg) :
    w.alloc 0 + tx_ring_bytes cfg ≤ w.alloc 2 ∨ w.alloc 2 + rx_ring_bytes cfg ≤ w.alloc 0 := by
  obtain ⟨-, -, -, -, g5, g6⟩ := ha.tx_geom ht
  obtain ⟨-, -, -, -, k5, k6⟩ := ha.rx_geom hr
  have := ha.rings_apart
  have hm1 : cfg.sizeof_tx_desc * (cfg.ETH_QUARK_TX_RING_SIZE + 1)
      = cfg.ETH_QUARK_TX_RING_SIZE * cfg.sizeof_tx_desc + cfg.sizeof_tx_desc := by
    rw [Nat.mul_succ, Nat.mul_comm]
  have hm2 : cfg.sizeof_rx_desc * (cfg.ETH_QUARK_RX_RING_SIZE + 1)
      = cfg.ETH_QUARK_RX_RING_SIZE * cfg.sizeof_rx_desc + cfg.sizeof_rx_desc := by
    rw [Nat.mul_succ, Nat.mul_comm]
  rw [g5, g6, k5, k6]
  omega

/-! ## Contents of memory after the ring initialisation -/

/-- Nothing that is done for the receive ring changes a byte of the transmit
descriptor block. -/
theorem mem_final_tx_block {cfg : Cfg} {w : World} (ha : AllocOK cfg w) (ht : TxLayout cfg)
    (hr : RxLayout cfg) (hn : 0 < cfg.ETH_QUARK_RX_RING_SIZE) (x : Nat)
    (h1 : w.alloc 0 ≤ x) (h2 : x < w.alloc 0 + tx_ring_bytes cfg) :
    mem_final cfg w x = mem_after_tx cfg w x := by
  have hap := ha.apart ht hr
  obtain ⟨k1, k2, -, -, k5, -⟩ := ha.rx_geom hr
  have hlast := rx_field_in_block ha hr cfg.rx_buf1size hr.buf1size_in
    (cfg.ETH_QUARK_RX_RING_SIZE - 1) (by omega)
  have h3 := hr.buffer1_in
  have h4 := hr.buffer1_width
  unfold mem_final
  rw [mem_store_outside _ _ _ _ _ (by unfold rer_addr; omega)]
  unfold mem_after_rx
  rw [rx_fill_mem_outside cfg hr _ _ _ _ _ (by omega)]
  unfold mem_before_rx
  rw [mem_set_outside _ _ _ _ _ (by omega)]

/-- A member of a receive descriptor that the store of line 269 does not
touch reads as the receive loop left it. -/
theorem mem_final_rx_load {cfg : Cfg} {w : World} (g : Field) (i : Nat)
    (hg : g.off + g.width ≤ cfg.sizeof_rx_desc) (hb : cfg.rx_buf1size.off
      + cfg.rx_buf1size.width ≤ cfg.sizeof_rx_desc)
    (h : i ≠ cfg.ETH_QUARK_RX_RING_SIZE - 1 ∨ g.Disjoint cfg.rx_buf1size) :
    mem_load (mem_final cfg w) (field_addr (align4 (w.alloc 2)) cfg.sizeof_rx_desc i g) g.width
      = mem_load (mem_after_rx cfg w)
          (field_addr (align4 (w.alloc 2)) cfg.sizeof_rx_desc i g) g.width := by
  unfold mem_final
  apply mem_load_store_disjoint
  unfold rer_addr field_addr
  by_cases hi : i = cfg.ETH_QUARK_RX_RING_SIZE - 1
  · rcases h with h | h
    · exact absurd hi h
    · unfold Field.Disjoint at h
      rw [hi]
      omega
  · rcases Nat.lt_or_gt_of_ne hi with h' | h'
    · have := slot_before cfg.sizeof_rx_desc _ _ h'
      omega
    · have := slot_before cfg.sizeof_rx_desc _ _ h'
      omega

/-! ## Successful runs of `eth_q_init` -/

theorem mem_final_congr (cfg : Cfg) (w0 w : World) (h1 : w0.mem = w.mem)
    (h2 : w0.getmem_ret = w.getmem_ret) (h3 : w0.getmem_calls = w.getmem_calls) :
    mem_final cfg w0 = mem_final cfg w := by
  simp only [mem_final, rer_value, rer_addr, mem_after_rx, mem_before_rx, mem_after_tx,
    World.alloc, h1, h2, h3]

/-- A run that returns `OK` went through the whole ring initialisation, from a
world with the memory and the allocator of the initial one. -/
theorem eth_q_init_ok_rings (cfg : Cfg) (fuel : Nat) (dp : Dentry) (w w1 : World)
    (hne : cfg.OK ≠ cfg.SYSERR) (h : eth_q_init cfg fuel dp w = some (cfg.OK, w1)) :
    ∃ w0, init_rings cfg dp w0 = (cfg.OK, w1) ∧ w0.mem = w.mem ∧
      w0.getmem_ret = w.getmem_ret ∧ w0.getmem_calls = w.getmem_calls ∧
      w0.semcreate_ret = w.semcreate_ret ∧ w0.semcreate_calls = w.semcreate_calls := by
  unfold eth_q_init at h
  dsimp only at h
  cases hm : wait_clear cfg .bmr 0x00000001 fuel 0
      ((w.dev.log (.pci 0x4 0x0006)).orw .bmr 0x00000001) with
  | none => rw [hm] at h; simp at h
  | some r =>
    obtain ⟨b, d2⟩ := r
    rw [hm] at h
    cases b with
    | true =>
      simp only [Option.some.injEq, Prod.mk.injEq] at h
      exact absurd h.1.symm hne
    | false =>
      dsimp only at h
      cases hr : eth_q_phy_reset cfg fuel ((d2.orw .bmr 0x00010000).orw .omr 0x00200000) with
      | none => rw [hr] at h; simp at h
      | some r2 =>
        obtain ⟨rc2, d3⟩ := r2
        rw [hr] at h
        simp only [Option.some.injEq] at h
        exact ⟨_, h, rfl, rfl, rfl, rfl, rfl⟩

/-- The rings, the buffer pools, the counters and the memory after a run that
returns `OK`, in terms of the initial world. -/
theorem eth_q_init_ok_final (cfg : Cfg) (fuel : Nat) (dp : Dentry) (w w1 : World)
    (hne : cfg.OK ≠ cfg.SYSERR) (h : eth_q_init cfg fuel dp w = some (cfg.OK, w1)) :
    w1.mem = mem_final cfg w ∧
    w1.eth.txRingSize = cfg.ETH_QUARK_TX_RING_SIZE ∧
    w1.eth.rxRingSize = cfg.ETH_QUARK_RX_RING_SIZE ∧
    w1.eth.txRing = align4 (w.alloc 0) ∧ w1.eth.txBufs = align4 (w.alloc 1) ∧
    w1.eth.rxRing = align4 (w.alloc 2) ∧ w1.eth.rxBufs = align4 (w.alloc 3) ∧
    w1.eth.osem = w.sem 0 ∧ w1.eth.isem = w.sem 1 ∧
    w.sem 0 ≠ cfg.SYSERR ∧ w.sem 1 ≠ cfg.SYSERR := by
  obtain ⟨w0, h0, e1, e2, e3, e4, e5⟩ := eth_q_init_ok_rings cfg fuel dp w w1 hne h
  obtain ⟨s0, s1, hm, q1, q2, q3, q4, q5, q6, q7, q8, -⟩ := init_rings_ok cfg dp w0 w1 hne h0
  have ea : ∀ k, w0.alloc k = w.alloc k := by
    intro k; simp [World.alloc, e2, e3]
  have es : ∀ k, w0.sem k = w.sem k := by
    intro k; simp [World.sem, e4, e5]
  rw [ea] at q3 q4 q5 q6
  rw [es] at q7 q8 s0 s1
  exact ⟨by rw [hm, mem_final_congr cfg w0 w e1 e2 e3], q1, q2, q3, q4, q5, q6, q7, q8, s0, s1⟩

theorem or_and_self_right (a b : Nat) : (a ||| b) &&& b = b := by
  apply Nat.eq_of_testBit_eq
  intro i
  simp only [Nat.testBit_and, Nat.testBit_or]
  cases a.testBit i <;> cases b.testBit i <;> rfl

theorem or_or_and_left (a t r : Nat) : (a ||| (t ||| r)) &&& t = t := by
  apply Nat.eq_of_testBit_eq
  intro i
  simp only [Nat.testBit_and, Nat.testBit_or]
  cases a.testBit i <;> cases t.testBit i <;> cases r.testBit i <;> rfl

theorem or_or_and_right (a t r : Nat) : (a ||| (t ||| r)) &&& r = r := by
  apply Nat.eq_of_testBit_eq
  intro i
  simp only [Nat.testBit_and, Nat.testBit_or]
  cases a.testBit i <;> cases t.testBit i <;> cases r.testBit i <;> rfl

theorem pow_256 (k : Nat) : 256 ^ k = 2 ^ (8 * k) := by
  rw [Nat.pow_mul]

/-! ## The simulated configuration -/

theorem quark_tx_layout : TxLayout quark := ⟨rfl, by decide⟩

theorem quark_rx_layout : RxLayout quark :=
  ⟨rfl, by decide, by decide, by decide, by unfold Field.Disjoint; decide,
    by unfold Field.Disjoint; decide, by unfold Field.Disjoint; decide⟩

theorem sim_alloc_ok (d : Dev) : AllocOK quark (sim_world d) := by
  constructor
  · show 0x100000 + 0 * 0x100000 + 16 * (128 + 1) < 2 ^ 32
    norm_num
  · show 0x100000 + (0 + 1) * 0x100000 + 2048 * (128 + 1) < 2 ^ 32
    norm_num
  · show 0x100000 + (0 + 2) * 0x100000 + 16 * (128 + 1) < 2 ^ 32
    norm_num
  · show 0x100000 + (0 + 3) * 0x100000 + 2048 * (128 + 1) < 2 ^ 32
    norm_num
  · show 0x100000 + 0 * 0x100000 + 16 * (128 + 1) ≤ 0x100000 + (0 + 2) * 0x100000 ∨
      0x100000 + (0 + 2) * 0x100000 + 16 * (128 + 1) ≤ 0x100000 + 0 * 0x100000
    norm_num

/-- A run whose return value is known ends in some world. -/
theorem run_of_rc (cfg : Cfg) (fuel : Nat) (dp : Dentry) (w : World) (rc : Int)
    (h : (eth_q_init cfg fuel dp w).map Prod.fst = some rc) :
    ∃ w1, eth_q_init cfg fuel dp w = some (rc, w1) := by
  cases hr : eth_q_init cfg fuel dp w with
  | none => rw [hr] at h; simp at h
  | some r =>
    obtain ⟨rc1, w1⟩ := r
    rw [hr] at h
    simp only [Option.map_some', Option.some.injEq] at h
    exact ⟨w1, by rw [h]⟩

set_option maxRecDepth 100000 in
theorem quiet_run_rc :
    (eth_q_init quark 10 sim_dentry (sim_world quiet_dev)).map Prod.fst = some quark.OK := by
  decide

/-- On the quiet simulated device `eth_q_init` returns `OK`. -/
theorem quiet_run_ok :
    ∃ w1, eth_q_init quark 10 sim_dentry (sim_world quiet_dev) = some (quark.OK, w1) :=
  run_of_rc _ _ _ _ _ quiet_run_rc

set_option maxRecDepth 100000 in
theorem isem_fail_run_rc :
    (eth_q_init quark 10 sim_dentry isem_fail_world).map Prod.fst = some quark.SYSERR := by
  decide

/-- When `semcreate(0)` fails on the quiet simulated device, `eth_q_init` returns `SYSERR`. -/
theorem isem_fail_run :
    ∃ w1, eth_q_init quark 10 sim_dentry isem_fail_world = some (quark.SYSERR, w1) :=
  run_of_rc _ _ _ _ _ isem_fail_run_rc

/-! ## Controller bootstrap: the result of the transceiver reset -/

/-- C1 fails on the code.  On a device whose PHY control register always reads
with the reset bit 0x8000 set, the call `eth_q_phy_reset(csrptr)` of line 163
returns `SYSERR` (inside `eth_q_init` the transceiver sees the read and the
write of register 0 and the four reads of the reset loop, and no read of the
status register), yet `eth_q_init` returns `OK`, and after that call it
registers the interrupt handler, programs the hardware address, allocates the
rings and, as its last action, starts the DMA processes: the value returned by
`eth_q_phy_reset` is discarded. -/
theorem phy_reset_failure_is_ignored :
    (eth_q_phy_reset quark 10 (dev_at_phy_reset stuck_reset_dev)).map Prod.fst
      = some quark.SYSERR ∧
    (eth_q_init quark 10 sim_dentry (sim_world stuck_reset_dev)).map
      (fun r => requests r.2.dev.trace) = some [read_request quark 0, read_request quark 0,
        read_request quark 0, read_request quark 0, write_request quark 0,
        read_request quark 0] ∧
    (eth_q_init quark 10 sim_dentry (sim_world stuck_reset_dev)).map Prod.fst
      = some quark.OK ∧
    (eth_q_init quark 10 sim_dentry (sim_world stuck_reset_dev)).map
      (fun r => r.2.dev.trace.any is_evec) = some true ∧
    (eth_q_init quark 10 sim_dentry (sim_world stuck_reset_dev)).map
      (fun r => r.2.dev.trace.any is_macaddr_write) = some true ∧
    (eth_q_init quark 10 sim_dentry (sim_world stuck_reset_dev)).map
      (fun r => r.2.dev.trace.any is_getmem) = some true ∧
    (eth_q_init quark 10 sim_dentry (sim_world stuck_reset_dev)).map
      (fun r => r.2.dev.trace.head?) = some (some (Event.orw .omr
        (quark.ETH_QUARK_OMR_ST ||| quark.ETH_QUARK_OMR_SR) 0)) := by
  refine ⟨by decide, ?_, ?_, ?_, ?_, ?_, ?_⟩
  · set_option maxRecDepth 100000 in decide
  · set_option maxRecDepth 100000 in decide
  · set_option maxRecDepth 100000 in decide
  · set_option maxRecDepth 100000 in decide
  · set_option maxRecDepth 100000 in decide
  · set_option maxRecDepth 100000 in decide

/-! ## Register access layer: polls of the busy flag -/

/-- C2, as stated, fails: on a device whose busy flag reads set for exactly
five polls after the request word and then clear, with three retries
configured, `eth_q_phy_read` and `eth_q_phy_write` each make four polls in
their completion loop, not six. -/
theorem phy_access_polls_counterexample :
    BusyPattern quark busy5_dev 0 5 ∧
    (eth_q_phy_read quark 10 busy5_dev 1).map (fun r => polls_since_request r.2.trace) = some 4 ∧
    (eth_q_phy_write quark 10 busy5_dev 1 7).map (fun r => polls_since_request r.trace) = some 4 ∧
    (eth_q_phy_read quark 10 busy5_dev 1).map (fun r => polls_since_request r.2.trace)
      ≠ some (5 + 1) ∧
    (eth_q_phy_write quark 10 busy5_dev 1 7).map (fun r => polls_since_request r.trace)
      ≠ some (5 + 1) := by
  refine ⟨?_, by decide, by decide, by decide, by decide⟩
  unfold BusyPattern
  refine ⟨by intro n hn; omega, by decide, ?_, by decide⟩
  intro n hn
  have : n = 0 ∨ n = 1 ∨ n = 2 ∨ n = 3 ∨ n = 4 := by omega
  rcases this with rfl | rfl | rfl | rfl | rfl <;> decide

/-- C2 (amended).  When the busy flag reads set for exactly `k` polls after
the request word is written and then reads clear: if
`k ≤ ETH_QUARK_MAX_RETRIES`, `eth_q_phy_read` and `eth_q_phy_write` each make
exactly `k + 1` polls in their completion loop and leave it because the flag
read clear, the read returning the low 16 bits of `gmiidr`; if
`k > ETH_QUARK_MAX_RETRIES`, each makes exactly `ETH_QUARK_MAX_RETRIES + 1`
polls and returns from inside the loop, the read returning 0 without reading
`gmiidr` and the write returning nothing. -/
theorem phy_access_polls (cfg : Cfg) (fuel j k regnum value : Nat) (d : Dev)
    (hj : j < fuel) (hfuel : cfg.ETH_QUARK_MAX_RETRIES < fuel)
    (hbusy : BusyPattern cfg d j k) :
    ∃ v dr dw,
      eth_q_phy_read cfg fuel d regnum = some (v, dr) ∧
      eth_q_phy_write cfg fuel d regnum value = some dw ∧
      (k ≤ cfg.ETH_QUARK_MAX_RETRIES →
        polls_since_request dr.trace = k + 1 ∧ polls_since_request dw.trace = k + 1 ∧
        v = d.val .gmiidr % 2 ^ 16 ∧
        dr.trace.head? = some (Event.rd .gmiidr (d.val .gmiidr)) ∧
        ∃ x, dw.trace.head? = some (Event.rd .gmiiar x) ∧ x &&& cfg.ETH_QUARK_GMIIAR_GB = 0) ∧
      (cfg.ETH_QUARK_MAX_RETRIES < k →
        polls_since_request dr.trace = cfg.ETH_QUARK_MAX_RETRIES + 1 ∧
        polls_since_request dw.trace = cfg.ETH_QUARK_MAX_RETRIES + 1 ∧
        v = 0 ∧ dr.pos .gmiidr = d.pos .gmiidr ∧
        dr.trace.head? = some (Event.delay cfg.ETH_QUARK_INIT_DELAY) ∧
        dw.trace.head? = some (Event.delay cfg.ETH_QUARK_INIT_DELAY)) := by
  by_cases hk : k ≤ cfg.ETH_QUARK_MAX_RETRIES
  · refine ⟨_, _, _, phy_read_done cfg fuel j k regnum d hj hk (by omega) hbusy,
      phy_write_done cfg fuel j k regnum value d hj hk (by omega) hbusy, ?_, fun h => by omega⟩
    intro _
    have hv : ((poll_n cfg .gmiiar k (read_issued cfg j regnum d)).rd .gmiiar).val .gmiidr
        = d.val .gmiidr := by
      rw [Dev.rd_val_other _ _ _ (by decide), poll_n_val_other _ _ _ (by decide)]
      simp [Dev.val]
    refine ⟨?_, ?_, rfl, ?_, ?_⟩
    · simp [polls_since_request, polls_since_request_poll_n]
    · simp [polls_since_request, polls_since_request_poll_n]
    · simp [hv]
    · refine ⟨(poll_n cfg .gmiiar k (write_issued cfg j regnum value d)).val .gmiiar, by simp, ?_⟩
      have h4 := hbusy.2.2.2
      simpa [Dev.val, poll_n_inp, poll_n_pos_same] using h4
  · have hk' : cfg.ETH_QUARK_MAX_RETRIES < k := by omega
    obtain ⟨h1, h2, h3, -⟩ := hbusy
    have h3' : ∀ n, n < cfg.ETH_QUARK_MAX_RETRIES + 1 →
        d.inp .gmiiar (d.pos .gmiiar + j + 1 + n) &&& cfg.ETH_QUARK_GMIIAR_GB ≠ 0 :=
      fun n hn => h3 n (by omega)
    refine ⟨_, _, _, phy_read_timeout cfg fuel j regnum d hj hfuel h1 h2 h3',
      phy_write_timeout cfg fuel j regnum value d hj hfuel h1 h2 h3', fun h => by omega, ?_⟩
    intro _
    refine ⟨?_, ?_, rfl, ?_, ?_, ?_⟩
    · simp [polls_since_request_poll_n]
    · simp [polls_since_request_poll_n]
    · rw [poll_n_pos_other _ _ _ (by decide)]
      simp
    · simp [poll_n_succ_trace]
    · simp [poll_n_succ_trace]

/-- Witness of `phy_access_polls`: with three retries, a flag that is set once
before the request and for two polls after it lets both accesses complete
after three polls. -/
theorem phy_access_polls_witness :
    BusyPattern quark busy2_dev 1 2 ∧
    ∃ v dr dw,
      eth_q_phy_read quark 10 busy2_dev 1 = some (v, dr) ∧
      eth_q_phy_write quark 10 busy2_dev 1 7 = some dw ∧
      (2 ≤ quark.ETH_QUARK_MAX_RETRIES →
        polls_since_request dr.trace = 2 + 1 ∧ polls_since_request dw.trace = 2 + 1 ∧
        v = busy2_dev.val .gmiidr % 2 ^ 16 ∧
        dr.trace.head? = some (Event.rd .gmiidr (busy2_dev.val .gmiidr)) ∧
        ∃ x, dw.trace.head? = some (Event.rd .gmiiar x) ∧ x &&& quark.ETH_QUARK_GMIIAR_GB = 0) ∧
      (quark.ETH_QUARK_MAX_RETRIES < 2 →
        polls_since_request dr.trace = quark.ETH_QUARK_MAX_RETRIES + 1 ∧
        polls_since_request dw.trace = quark.ETH_QUARK_MAX_RETRIES + 1 ∧
        v = 0 ∧ dr.pos .gmiidr = busy2_dev.pos .gmiidr ∧
        dr.trace.head? = some (Event.delay quark.ETH_QUARK_INIT_DELAY) ∧
        dw.trace.head? = some (Event.delay quark.ETH_QUARK_INIT_DELAY)) := by
  have hb : BusyPattern quark busy2_dev 1 2 := by
    unfold BusyPattern
    refine ⟨?_, by decide, ?_, by decide⟩
    · intro n hn
      obtain rfl : n = 0 := by omega
      decide
    · intro n hn
      have : n = 0 ∨ n = 1 := by omega
      rcases this with rfl | rfl <;> decide
  exact ⟨hb, phy_access_polls quark 10 1 2 1 7 busy2_dev (by decide) (by decide) hb⟩

/-- C3.  For every receive ring size `N ≥ 1`, after the ring initialisation of
a successful `eth_q_init` the end-of-ring flag `ETH_QUARK_RDCTL1_RER` is set in
`buf1size` of the receive descriptor at index `N - 1`, and it is clear in
`buf1size` of every descriptor at an index `i < N - 1`: exactly one descriptor
of the ring carries the flag. -/
theorem end_of_ring_flag_on_last_only (cfg : Cfg) (fuel : Nat) (dp : Dentry) (w w1 : World)
    (hne : cfg.OK ≠ cfg.SYSERR) (hr : RxLayout cfg)
    (hn : 1 ≤ cfg.ETH_QUARK_RX_RING_SIZE)
    (hsz32 : cfg.sizeof_netpacket < 2 ^ 32)
    (hsz : cfg.sizeof_netpacket < 256 ^ cfg.rx_buf1size.width)
    (hrer : cfg.ETH_QUARK_RDCTL1_RER < 256 ^ cfg.rx_buf1size.width)
    (hfree : cfg.sizeof_netpacket &&& cfg.ETH_QUARK_RDCTL1_RER = 0)
    (h : eth_q_init cfg fuel dp w = some (cfg.OK, w1)) :
    w1.eth.rxRingSize = cfg.ETH_QUARK_RX_RING_SIZE ∧
    mem_load w1.mem
        (field_addr w1.eth.rxRing cfg.sizeof_rx_desc (w1.eth.rxRingSize - 1) cfg.rx_buf1size)
        cfg.rx_buf1size.width &&& cfg.ETH_QUARK_RDCTL1_RER = cfg.ETH_QUARK_RDCTL1_RER ∧
    ∀ i, i < w1.eth.rxRingSize - 1 →
      mem_load w1.mem (field_addr w1.eth.rxRing cfg.sizeof_rx_desc i cfg.rx_buf1size)
          cfg.rx_buf1size.width &&& cfg.ETH_QUARK_RDCTL1_RER = 0 := by
  obtain ⟨hm, q1, q2, q3, q4, q5, q6, -⟩ := eth_q_init_ok_final cfg fuel dp w w1 hne h
  rw [hm, q2, q5]
  have hu : u32 cfg.sizeof_netpacket % 256 ^ cfg.rx_buf1size.width = cfg.sizeof_netpacket := by
    unfold u32
    rw [Nat.mod_eq_of_lt hsz32, Nat.mod_eq_of_lt hsz]
  refine ⟨rfl, ?_, ?_⟩
  · have hv : rer_value cfg w = cfg.sizeof_netpacket ||| cfg.ETH_QUARK_RDCTL1_RER := by
      unfold rer_value rer_addr mem_after_rx
      rw [rx_fill_mem_buf1size cfg hr _ _ _ _ _ (by omega), hu]
    have hlt : cfg.sizeof_netpacket ||| cfg.ETH_QUARK_RDCTL1_RER
        < 256 ^ cfg.rx_buf1size.width := by
      rw [pow_256] at *
      exact Nat.or_lt_two_pow hsz hrer
    show mem_load (mem_final cfg w) (rer_addr cfg w) cfg.rx_buf1size.width
      &&& cfg.ETH_QUARK_RDCTL1_RER = _
    unfold mem_final
    rw [mem_load_store, hv, Nat.mod_eq_of_lt hlt, or_and_self_right]
  · intro i hi
    rw [mem_final_rx_load cfg.rx_buf1size i hr.buf1size_in hr.buf1size_in
      (Or.inl (by omega))]
    unfold mem_after_rx
    rw [rx_fill_mem_buf1size cfg hr _ _ i _ _ (by omega), hu, hfree]

/-- Witness of `end_of_ring_flag_on_last_only`: the quiet simulated device with
a receive ring of 128 descriptors. -/
theorem end_of_ring_flag_on_last_only_witness :
    ∃ w1, eth_q_init quark 10 sim_dentry (sim_world quiet_dev) = some (quark.OK, w1) ∧
      (w1.eth.rxRingSize = quark.ETH_QUARK_RX_RING_SIZE ∧
      mem_load w1.mem
          (field_addr w1.eth.rxRing quark.sizeof_rx_desc (w1.eth.rxRingSize - 1)
            quark.rx_buf1size)
          quark.rx_buf1size.width &&& quark.ETH_QUARK_RDCTL1_RER
        = quark.ETH_QUARK_RDCTL1_RER ∧
      ∀ i, i < w1.eth.rxRingSize - 1 →
        mem_load w1.mem (field_addr w1.eth.rxRing quark.sizeof_rx_desc i quark.rx_buf1size)
            quark.rx_buf1size.width &&& quark.ETH_QUARK_RDCTL1_RER = 0) := by
  obtain ⟨w1, h⟩ := quiet_run_ok
  exact ⟨w1, h, end_of_ring_flag_on_last_only quark 10 sim_dentry (sim_world quiet_dev) w1
    (by decide) quark_rx_layout (by decide) (by decide) (by decide) (by decide) (by decide) h⟩

/-- C4, as stated, fails: with memory holding `0xAA` everywhere, the first
byte of the block that `getmem` returns for the transmit descriptors (address
`0x100000`, outside every `buffer1` member, which occupies bytes 8 to 11 of a
descriptor) holds `0xAA` when the allocator returns it, but 0 once the
transmit ring is set up and 0 when `eth_q_init` returns: the transmit
descriptor block is cleared by `memset` too. -/
theorem tx_descriptors_not_zeroed_counterexample :
    (sim_world quiet_dev).alloc 0 = 0x100000 ∧
    (sim_world quiet_dev).mem 0x100000 = 0xAA ∧
    quark.tx_buffer1 = ⟨8, 4⟩ ∧
    (init_tx_ring quark (init_mac quark sim_dentry (sim_world quiet_dev))).ok = true ∧
    (init_tx_ring quark (init_mac quark sim_dentry (sim_world quiet_dev))).world.eth.txRing
      = 0x100000 ∧
    (init_tx_ring quark (init_mac quark sim_dentry (sim_world quiet_dev))).world.mem 0x100000
      = 0 ∧
    (eth_q_init quark 10 sim_dentry (sim_world quiet_dev)).map (fun r => r.2.mem 0x100000)
      = some 0 := by
  refine ⟨by decide, by decide, by decide, ?_, ?_, ?_, ?_⟩
  · set_option maxRecDepth 100000 in decide
  · set_option maxRecDepth 100000 in decide
  · set_option maxRecDepth 100000 in decide
  · set_option maxRecDepth 100000 in decide

/-- C4 (amended).  `eth_q_init` zeroes both descriptor allocations.  In every
run that returns `OK`, in the world `wt` reached when the transmit ring is set
up (after lines 192-227) every byte of the transmit descriptor block other
than the `buffer1` members written by the loop is zero, and in the world `wr`
reached just before the receive loop (after lines 229-258) every byte of the
receive descriptor block is zero, whatever the blocks held when `getmem`
returned them. -/
theorem both_descriptor_blocks_zeroed (cfg : Cfg) (fuel : Nat) (dp : Dentry) (w w1 : World)
    (hne : cfg.OK ≠ cfg.SYSERR) (h : eth_q_init cfg fuel dp w = some (cfg.OK, w1)) :
    ∃ w0 wt wr,
      w0.mem = w.mem ∧
      init_tx_ring cfg (init_mac cfg dp w0) = .next wt ∧
      init_rx_alloc cfg wt = .next wr ∧
      init_start cfg (init_rx_descs cfg wr) = (cfg.OK, w1) ∧
      (∀ x, w.alloc 0 ≤ x → x < w.alloc 0 + tx_ring_bytes cfg →
        (∀ i, i < cfg.ETH_QUARK_TX_RING_SIZE →
          x < field_addr wt.eth.txRing cfg.sizeof_tx_desc i cfg.tx_buffer1 ∨
          field_addr wt.eth.txRing cfg.sizeof_tx_desc i cfg.tx_buffer1
            + cfg.tx_buffer1.width ≤ x) →
        wt.mem x = 0) ∧
      (∀ x, w.alloc 2 ≤ x → x < w.alloc 2 + rx_ring_bytes cfg → wr.mem x = 0) := by
  obtain ⟨w0, h0, e1, e2, e3, -, -⟩ := eth_q_init_ok_rings cfg fuel dp w w1 hne h
  have ea : ∀ k, w0.alloc k = w.alloc k := by
    intro k; simp [World.alloc, e2, e3]
  unfold init_rings at h0
  cases h1 : init_tx_ring cfg (init_mac cfg dp w0) with
  | fail wt =>
    rw [h1] at h0
    simp only [Prod.mk.injEq] at h0
    exact absurd h0.1.symm hne
  | next wt =>
    rw [h1] at h0
    dsimp only at h0
    cases h2 : init_rx_alloc cfg wt with
    | fail wr =>
      rw [h2] at h0
      simp only [Prod.mk.injEq] at h0
      exact absurd h0.1.symm hne
    | next wr =>
      rw [h2] at h0
      dsimp only at h0
      obtain ⟨-, t2, t3, t4, t5, -⟩ := init_tx_ring_next cfg _ wt h1
      obtain ⟨r1, -⟩ := init_rx_alloc_next cfg wt wr h2
      have am : ∀ k, (init_mac cfg dp w0).alloc k = w.alloc k := fun k => ea k
      have mm : mem_after_tx cfg (init_mac cfg dp w0) = mem_after_tx cfg w0 := rfl
      have a0 : wt.alloc 0 = w.alloc 2 := by
        rw [World.alloc_shift (init_mac cfg dp w0) wt 2 0 t4 t5]
        exact ea 2
      refine ⟨w0, wt, wr, e1, h1, h2, h0, ?_, ?_⟩
      · intro x hx1 hx2 hout
        rw [t2, mm]
        unfold mem_after_tx
        rw [ea, ea, tx_fill_mem_outside, mem_set_inside _ _ _ _ _ hx1 hx2]
        intro i hi
        have := hout i hi
        rw [t3] at this
        simpa [am] using this
      · intro x hx1 hx2
        rw [r1, a0, mem_set_inside _ _ _ _ _ hx1 hx2]

/-- Witness of `both_descriptor_blocks_zeroed`: the quiet simulated device,
memory filled with `0xAA` before the run. -/
theorem both_descriptor_blocks_zeroed_witness :
    ∃ w1, eth_q_init quark 10 sim_dentry (sim_world quiet_dev) = some (quark.OK, w1) ∧
    ∃ w0 wt wr,
      w0.mem = (sim_world quiet_dev).mem ∧
      init_tx_ring quark (init_mac quark sim_dentry w0) = .next wt ∧
      init_rx_alloc quark wt = .next wr ∧
      init_start quark (init_rx_descs quark wr) = (quark.OK, w1) ∧
      (∀ x, (sim_world quiet_dev).alloc 0 ≤ x →
        x < (sim_world quiet_dev).alloc 0 + tx_ring_bytes quark →
        (∀ i, i < quark.ETH_QUARK_TX_RING_SIZE →
          x < field_addr wt.eth.txRing quark.sizeof_tx_desc i quark.tx_buffer1 ∨
          field_addr wt.eth.txRing quark.sizeof_tx_desc i quark.tx_buffer1
            + quark.tx_buffer1.width ≤ x) →
        wt.mem x = 0) ∧
      (∀ x, (sim_world quiet_dev).alloc 2 ≤ x →
        x < (sim_world quiet_dev).alloc 2 + rx_ring_bytes quark → wr.mem x = 0) := by
  obtain ⟨w1, h⟩ := quiet_run_ok
  exact ⟨w1, h, both_descriptor_blocks_zeroed quark 10 sim_dentry (sim_world quiet_dev) w1
    (by decide) h⟩

/-! ## Ordering of the bring-up -/

/-- C5.  In every run of `eth_q_init` that returns: a call of `semcreate` that
fails (in particular `semcreate(0)` for the input counter) makes the run
return `SYSERR`; on every run that returns `SYSERR` the statement
`csrptr->omr |= (ETH_QUARK_OMR_ST | ETH_QUARK_OMR_SR)` is never executed; and
on the run that returns `OK` that statement is the last action, executed once,
after the store into `buffer1` of every transmit descriptor, the stores into
`status`, `buf1size` and `buffer1` of every receive descriptor, the store of
the end-of-ring flag, the writes of `tdla` and `rdla`, and the creation of
both counters. -/
theorem dma_started_last (cfg : Cfg) (fuel : Nat) (dp : Dentry) (w w1 : World) (rc : Int)
    (hne : cfg.OK ≠ cfg.SYSERR)
    (hst : cfg.ETH_QUARK_OMR_ST ||| cfg.ETH_QUARK_OMR_SR ≠ 0x00200000)
    (h : eth_q_init cfg fuel dp w = some (rc, w1)) :
    (rc = cfg.OK ∨ rc = cfg.SYSERR) ∧
    ∃ new, w1.dev.trace = new ++ w.dev.trace ∧
      ((∃ n, Event.semcreate n cfg.SYSERR ∈ new) → rc = cfg.SYSERR) ∧
      (rc = cfg.SYSERR → ∀ e, e ∈ new → is_start cfg e = false) ∧
      (rc = cfg.OK → ∃ old rest,
        new = Event.orw .omr (cfg.ETH_QUARK_OMR_ST ||| cfg.ETH_QUARK_OMR_SR) old :: rest ∧
        (∀ e, e ∈ rest → is_start cfg e = false) ∧
        (∀ i, i < w1.eth.txRingSize →
          Event.store (field_addr w1.eth.txRing cfg.sizeof_tx_desc i cfg.tx_buffer1)
            cfg.tx_buffer1.width (u32 (w1.eth.txBufs + i * cfg.sizeof_netpacket)) ∈ rest) ∧
        (∀ i, i < w1.eth.rxRingSize →
          Event.store (field_addr w1.eth.rxRing cfg.sizeof_rx_desc i cfg.rx_status)
            cfg.rx_status.width cfg.ETH_QUARK_RDST_OWN ∈ rest ∧
          Event.store (field_addr w1.eth.rxRing cfg.sizeof_rx_desc i cfg.rx_buf1size)
            cfg.rx_buf1size.width (u32 cfg.sizeof_netpacket) ∈ rest ∧
          Event.store (field_addr w1.eth.rxRing cfg.sizeof_rx_desc i cfg.rx_buffer1)
            cfg.rx_buffer1.width (u32 (w1.eth.rxBufs + i * cfg.sizeof_netpacket)) ∈ rest) ∧
        (∃ v, Event.store
          (field_addr w1.eth.rxRing cfg.sizeof_rx_desc (w1.eth.rxRingSize - 1) cfg.rx_buf1size)
          cfg.rx_buf1size.width (v ||| cfg.ETH_QUARK_RDCTL1_RER) ∈ rest) ∧
        Event.wr .tdla (u32 w1.eth.txRing) ∈ rest ∧
        Event.wr .rdla (u32 w1.eth.rxRing) ∈ rest ∧
        Event.semcreate w1.eth.txRingSize w1.eth.osem ∈ rest ∧ w1.eth.osem ≠ cfg.SYSERR ∧
        Event.semcreate 0 w1.eth.isem ∈ rest ∧ w1.eth.isem ≠ cfg.SYSERR) := by
  rcases eth_q_init_cases cfg fuel dp w w1 rc hst h with
    ⟨hrc, new, hn, hp⟩ | ⟨w0, pre, h0, -, -, -, -, -, hpre, ppre⟩
  · exact ⟨Or.inr hrc, new, hn, fun _ => hrc, fun _ => hp,
      fun hok => absurd (hok.symm.trans hrc) hne⟩
  · have hd := init_rings_rc cfg dp w0
    rw [h0] at hd
    refine ⟨hd, ?_⟩
    rcases hd with hok | herr
    · subst hok
      obtain ⟨s0, s1, -, q1, q2, q3, q4, q5, q6, q7, q8, mac, o1, o2, htr, -, pmac⟩ :=
        init_rings_ok cfg dp w0 w1 hne h0
      have htxe : ∀ e, e ∈ tx_events cfg w0 → is_start cfg e = false ∧
          (is_semcreate e = true → e = Event.semcreate cfg.ETH_QUARK_TX_RING_SIZE (w0.sem 0)) := by
        intro e he
        simp only [tx_events, List.mem_cons, List.mem_append, List.mem_singleton,
          List.not_mem_nil, or_false, mem_tx_fill_events] at he
        rcases he with rfl | ⟨i, -, rfl⟩ | rfl | rfl | rfl
        · exact ⟨rfl, fun _ => rfl⟩
        all_goals exact ⟨rfl, fun hh => by simp [is_semcreate] at hh⟩
      have hrxe : ∀ e, e ∈ rx_events cfg w0 → is_start cfg e = false ∧ is_semcreate e = false := by
        intro e he
        simp only [rx_events, List.mem_cons, List.mem_append, List.mem_singleton,
          List.not_mem_nil, or_false, mem_rx_fill_events] at he
        rcases he with rfl | ⟨i, -, rfl | rfl | rfl⟩ | rfl | rfl | rfl <;> exact ⟨rfl, rfl⟩
      refine ⟨start_events cfg w0 o1 o2 ++ (Event.semcreate 0 (w0.sem 1) ::
        (rx_events cfg w0 ++ (tx_events cfg w0 ++ (mac ++ pre)))), ?_, ?_, ?_, ?_⟩
      · rw [htr, hpre]; simp
      · rintro ⟨n, hmem⟩
        exfalso
        simp only [start_events, List.mem_cons, List.mem_append, List.mem_singleton,
          List.not_mem_nil, or_false, List.cons_append, List.nil_append] at hmem
        rcases hmem with hh | hh | hh | hh | hh | hh | hh | hh | hh | hh
        · cases hh
        · cases hh
        · cases hh
        · cases hh
        · cases hh
        · injection hh with _ h2
          exact s1 h2.symm
        · have := (hrxe _ hh).2
          simp [is_semcreate] at this
        · have := (htxe _ hh).2 rfl
          injection this with _ h2
          exact s0 h2.symm
        · have := (pmac _ hh).2
          simp [is_semcreate] at this
        · have := (ppre _ hh).2
          simp [is_semcreate] at this
      · intro herr
        exact absurd herr hne
      · intro _
        refine ⟨o2, [Event.orw .maccr (cfg.ETH_QUARK_MACCR_TE ||| cfg.ETH_QUARK_MACCR_RE) o1,
          Event.wr .rdla (u32 (align4 (w0.alloc 2))), Event.wr .tdla (u32 (align4 (w0.alloc 0))),
          Event.wr .ier
            (cfg.ETH_QUARK_IER_NIE ||| cfg.ETH_QUARK_IER_TIE ||| cfg.ETH_QUARK_IER_RIE)] ++
          (Event.semcreate 0 (w0.sem 1) ::
            (rx_events cfg w0 ++ (tx_events cfg w0 ++ (mac ++ pre)))), ?_, ?_, ?_, ?_, ?_, ?_, ?_,
          ?_, ?_, ?_, ?_⟩
        · simp [start_events]
        · intro e he
          simp only [List.mem_cons, List.mem_append, List.mem_singleton,
            List.not_mem_nil, or_false, List.cons_append, List.nil_append] at he
          rcases he with rfl | rfl | rfl | rfl | rfl | hh | hh | hh | hh
          · rfl
          · rfl
          · rfl
          · rfl
          · rfl
          · exact (hrxe _ hh).1
          · exact (htxe _ hh).1
          · exact (pmac _ hh).1
          · exact (ppre _ hh).1
        · intro i hi
          rw [q1] at hi
          rw [q3, q4]
          have : Event.store (field_addr (align4 (w0.alloc 0)) cfg.sizeof_tx_desc i cfg.tx_buffer1)
              cfg.tx_buffer1.width (u32 (align4 (w0.alloc 1) + i * cfg.sizeof_netpacket))
              ∈ tx_events cfg w0 := by
            simp only [tx_events, List.mem_cons, List.mem_append, mem_tx_fill_events]
            exact Or.inr (Or.inl ⟨i, hi, rfl⟩)
          simp [this]
        · intro i hi
          rw [q2] at hi
          rw [q5, q6]
          have hmem : ∀ e, (∃ j, j < cfg.ETH_QUARK_RX_RING_SIZE ∧
              (e = Event.store (field_addr (align4 (w0.alloc 2)) cfg.sizeof_rx_desc j
                  cfg.rx_buffer1) cfg.rx_buffer1.width
                  (u32 (align4 (w0.alloc 3) + j * cfg.sizeof_netpacket)) ∨
               e = Event.store (field_addr (align4 (w0.alloc 2)) cfg.sizeof_rx_desc j
                  cfg.rx_buf1size) cfg.rx_buf1size.width (u32 cfg.sizeof_netpacket) ∨
               e = Event.store (field_addr (align4 (w0.alloc 2)) cfg.sizeof_rx_desc j
                  cfg.rx_status) cfg.rx_status.width cfg.ETH_QUARK_RDST_OWN)) →
              e ∈ rx_events cfg w0 := by
            intro e he
            simp only [rx_events, List.mem_cons, List.mem_append, mem_rx_fill_events]
            exact Or.inr (Or.inl he)
          have m1 := hmem _ ⟨i, hi, Or.inr (Or.inr rfl)⟩
          have m2 := hmem _ ⟨i, hi, Or.inr (Or.inl rfl)⟩
          have m3 := hmem _ ⟨i, hi, Or.inl rfl⟩
          simp [m1, m2, m3]
        · refine ⟨mem_load (mem_after_rx cfg w0) (rer_addr cfg w0) cfg.rx_buf1size.width, ?_⟩
          rw [q2, q5]
          have : Event.store (rer_addr cfg w0) cfg.rx_buf1size.width (rer_value cfg w0)
              ∈ rx_events cfg w0 := by simp [rx_events]
          have hmem : Event.store (field_addr (align4 (w0.alloc 2)) cfg.sizeof_rx_desc
              (cfg.ETH_QUARK_RX_RING_SIZE - 1) cfg.rx_buf1size) cfg.rx_buf1size.width
              (mem_load (mem_after_rx cfg w0) (rer_addr cfg w0) cfg.rx_buf1size.width
                ||| cfg.ETH_QUARK_RDCTL1_RER) ∈ rx_events cfg w0 := this
          simp [hmem]
        · rw [q3]; simp
        · rw [q5]; simp
        · rw [q1, q7]
          have : Event.semcreate cfg.ETH_QUARK_TX_RING_SIZE (w0.sem 0) ∈ tx_events cfg w0 := by
            simp [tx_events]
          simp [this]
        · rw [q7]; exact s0
        · rw [q8]; simp
        · rw [q8]; exact s1
    · subst herr
      obtain ⟨new, hn, hp⟩ := init_rings_syserr cfg dp w0 w1 cfg.SYSERR h0 (Ne.symm hne)
      refine ⟨new ++ pre, by rw [hn, hpre]; simp, fun _ => rfl, ?_,
        fun hok => absurd hok.symm hne⟩
      intro _ e he
      rcases List.mem_append.1 he with h' | h'
      · exact hp e h'
      · exact (ppre e h').1

/-- Witness of `dma_started_last`: on the quiet simulated device with a failing
`semcreate(0)`, `eth_q_init` returns `SYSERR`. -/
theorem dma_started_last_witness :
    ∃ w1, eth_q_init quark 10 sim_dentry isem_fail_world = some (quark.SYSERR, w1) ∧
    (
      (quark.SYSERR = quark.OK ∨ quark.SYSERR = quark.SYSERR) ∧
      ∃ new, w1.dev.trace = new ++ isem_fail_world.dev.trace ∧
        ((∃ n, Event.semcreate n quark.SYSERR ∈ new) → quark.SYSERR = quark.SYSERR) ∧
        (quark.SYSERR = quark.SYSERR → ∀ e, e ∈ new → is_start quark e = false) ∧
        (quark.SYSERR = quark.OK → ∃ old rest,
          new = Event.orw .omr (quark.ETH_QUARK_OMR_ST ||| quark.ETH_QUARK_OMR_SR) old :: rest ∧
          (∀ e, e ∈ rest → is_start quark e = false) ∧
          (∀ i, i < w1.eth.txRingSize →
            Event.store (field_addr w1.eth.txRing quark.sizeof_tx_desc i quark.tx_buffer1)
              quark.tx_buffer1.width (u32 (w1.eth.txBufs + i * quark.sizeof_netpacket)) ∈ rest) ∧
          (∀ i, i < w1.eth.rxRingSize →
            Event.store (field_addr w1.eth.rxRing quark.sizeof_rx_desc i quark.rx_status)
              quark.rx_status.width quark.ETH_QUARK_RDST_OWN ∈ rest ∧
            Event.store (field_addr w1.eth.rxRing quark.sizeof_rx_desc i quark.rx_buf1size)
              quark.rx_buf1size.width (u32 quark.sizeof_netpacket) ∈ rest ∧
            Event.store (field_addr w1.eth.rxRing quark.sizeof_rx_desc i quark.rx_buffer1)
              quark.rx_buffer1.width (u32 (w1.eth.rxBufs + i * quark.sizeof_netpacket)) ∈ rest) ∧
          (∃ v, Event.store
            (field_addr w1.eth.rxRing quark.sizeof_rx_desc (w1.eth.rxRingSize - 1) quark.rx_buf1size)
            quark.rx_buf1size.width (v ||| quark.ETH_QUARK_RDCTL1_RER) ∈ rest) ∧
          Event.wr .tdla (u32 w1.eth.txRing) ∈ rest ∧
          Event.wr .rdla (u32 w1.eth.rxRing) ∈ rest ∧
          Event.semcreate w1.eth.txRingSize w1.eth.osem ∈ rest ∧ w1.eth.osem ≠ quark.SYSERR ∧
          Event.semcreate 0 w1.eth.isem ∈ rest ∧ w1.eth.isem ≠ quark.SYSERR)) := by
  obtain ⟨w1, h⟩ := isem_fail_run
  exact ⟨w1, h, dma_started_last quark 10 sim_dentry isem_fail_world w1 quark.SYSERR
    (by decide) (by decide) h⟩

/-! ## Link manager: auto-negotiation and silent time-outs -/

/-- C7.  After a successful `eth_q_init`, `txBufs` and `rxBufs` are the
4-byte-aligned bases of the two buffer pools, `buffer1` of transmit descriptor
`i` holds `txBufs + i * sizeof(struct netpacket)` for every `i < txRingSize`,
and `buffer1` of receive descriptor `i` holds
`rxBufs + i * sizeof(struct netpacket)` for every `i < rxRingSize`. -/
theorem buffer_pointers_after_init (cfg : Cfg) (fuel : Nat) (dp : Dentry) (w w1 : World)
    (hne : cfg.OK ≠ cfg.SYSERR) (ht : TxLayout cfg) (hr : RxLayout cfg)
    (hpkt : 4 ≤ cfg.sizeof_netpacket) (hn : 0 < cfg.ETH_QUARK_RX_RING_SIZE)
    (ha : AllocOK cfg w) (h : eth_q_init cfg fuel dp w = some (cfg.OK, w1)) :
    w1.eth.txBufs = align4 (w.alloc 1) ∧ 4 ∣ w1.eth.txBufs ∧
    w1.eth.rxBufs = align4 (w.alloc 3) ∧ 4 ∣ w1.eth.rxBufs ∧
    (∀ i, i < w1.eth.txRingSize →
      mem_load w1.mem (field_addr w1.eth.txRing cfg.sizeof_tx_desc i cfg.tx_buffer1)
        cfg.tx_buffer1.width = w1.eth.txBufs + i * cfg.sizeof_netpacket) ∧
    (∀ i, i < w1.eth.rxRingSize →
      mem_load w1.mem (field_addr w1.eth.rxRing cfg.sizeof_rx_desc i cfg.rx_buffer1)
        cfg.rx_buffer1.width = w1.eth.rxBufs + i * cfg.sizeof_netpacket) := by
  obtain ⟨hm, q1, q2, q3, q4, q5, q6, -⟩ := eth_q_init_ok_final cfg fuel dp w w1 hne h
  obtain ⟨-, -, b3, b4⟩ := bufs_geom _ _ _ ha.tx_bufs hpkt
  obtain ⟨-, -, c3, c4⟩ := bufs_geom _ _ _ ha.rx_bufs hpkt
  rw [hm, q1, q2, q3, q4, q5, q6]
  refine ⟨rfl, b3, rfl, c3, ?_, ?_⟩
  · intro i hi
    obtain ⟨f1, f2⟩ := tx_field_in_block ha ht cfg.tx_buffer1 ht.buffer1_in i hi
    rw [mem_load_congr (mem_final cfg w) (mem_after_tx cfg w) _ _
      (fun x h1 h2 => mem_final_tx_block ha ht hr hn x (by omega) (by omega))]
    unfold mem_after_tx
    rw [tx_fill_mem_load cfg ht _ _ i _ _ hi, ht.buffer1_width]
    obtain ⟨e1, e2⟩ := b4 i hi
    show u32 (align4 (u32 _) + i * cfg.sizeof_netpacket) % 256 ^ 4 = _
    rw [e1, Nat.mod_eq_of_lt (by simpa using e2)]
    rfl
  · intro i hi
    rw [mem_final_rx_load cfg.rx_buffer1 i hr.buffer1_in hr.buf1size_in
      (Or.inr (by have := hr.buf1size_buffer1; unfold Field.Disjoint at *; omega))]
    unfold mem_after_rx
    rw [rx_fill_mem_buffer1 cfg hr _ _ i _ _ hi, hr.buffer1_width]
    obtain ⟨e1, e2⟩ := c4 i hi
    show u32 (align4 (u32 _) + i * cfg.sizeof_netpacket) % 256 ^ 4 = _
    rw [e1, Nat.mod_eq_of_lt (by simpa using e2)]
    rfl

/-- Witness of `buffer_pointers_after_init`: the quiet simulated device with
rings of 128 descriptors and buffers of 2048 bytes. -/
theorem buffer_pointers_after_init_witness :
    ∃ w1, eth_q_init quark 10 sim_dentry (sim_world quiet_dev) = some (quark.OK, w1) ∧
      (w1.eth.txBufs = align4 ((sim_world quiet_dev).alloc 1) ∧ 4 ∣ w1.eth.txBufs ∧
      w1.eth.rxBufs = align4 ((sim_world quiet_dev).alloc 3) ∧ 4 ∣ w1.eth.rxBufs ∧
      (∀ i, i < w1.eth.txRingSize →
        mem_load w1.mem (field_addr w1.eth.txRing quark.sizeof_tx_desc i quark.tx_buffer1)
          quark.tx_buffer1.width = w1.eth.txBufs + i * quark.sizeof_netpacket) ∧
      (∀ i, i < w1.eth.rxRingSize →
        mem_load w1.mem (field_addr w1.eth.rxRing quark.sizeof_rx_desc i quark.rx_buffer1)
          quark.rx_buffer1.width = w1.eth.rxBufs + i * quark.sizeof_netpacket)) := by
  obtain ⟨w1, h⟩ := quiet_run_ok
  exact ⟨w1, h, buffer_pointers_after_init quark 10 sim_dentry (sim_world quiet_dev) w1
    (by decide) quark_tx_layout quark_rx_layout (by decide) (by decide)
    (sim_alloc_ok quiet_dev) h⟩

/-- C8.  After a successful `eth_q_init`, whatever the memory returned by the
allocator contained, `status` of every receive descriptor `i < rxRingSize`
equals `ETH_QUARK_RDST_OWN`, and in every transmit descriptor
`i < txRingSize` every member other than `buffer1`, in particular the
status/ownership word, is zero. -/
theorem descriptor_ownership_after_init (cfg : Cfg) (fuel : Nat) (dp : Dentry) (w w1 : World)
    (hne : cfg.OK ≠ cfg.SYSERR) (ht : TxLayout cfg) (hr : RxLayout cfg)
    (hn : 0 < cfg.ETH_QUARK_RX_RING_SIZE)
    (hown : cfg.ETH_QUARK_RDST_OWN < 256 ^ cfg.rx_status.width)
    (ha : AllocOK cfg w) (h : eth_q_init cfg fuel dp w = some (cfg.OK, w1)) :
    (∀ i, i < w1.eth.rxRingSize →
      mem_load w1.mem (field_addr w1.eth.rxRing cfg.sizeof_rx_desc i cfg.rx_status)
        cfg.rx_status.width = cfg.ETH_QUARK_RDST_OWN) ∧
    (∀ (f : Field), f.off + f.width ≤ cfg.sizeof_tx_desc → f.Disjoint cfg.tx_buffer1 →
      ∀ i, i < w1.eth.txRingSize →
        mem_load w1.mem (field_addr w1.eth.txRing cfg.sizeof_tx_desc i f) f.width = 0) := by
  obtain ⟨hm, q1, q2, q3, q4, q5, q6, -⟩ := eth_q_init_ok_final cfg fuel dp w w1 hne h
  rw [hm, q1, q2, q3, q5]
  constructor
  · intro i hi
    rw [mem_final_rx_load cfg.rx_status i hr.status_in hr.buf1size_in
      (Or.inr hr.status_buf1size)]
    unfold mem_after_rx
    rw [rx_fill_mem_status cfg hr _ _ i _ _ hi, Nat.mod_eq_of_lt hown]
  · intro f hf hd i hi
    obtain ⟨f1, f2⟩ := tx_field_in_block ha ht f hf i hi
    apply mem_load_zero
    intro x h1 h2
    rw [mem_final_tx_block ha ht hr hn x (by omega) (by omega)]
    unfold mem_after_tx
    rw [tx_fill_mem_outside]
    · rw [mem_set_inside _ _ _ _ _ (by omega) (by omega)]
    · intro j hj
      have hin := ht.buffer1_in
      unfold Field.Disjoint at hd
      unfold field_addr at *
      rcases Nat.lt_trichotomy j i with hlt | heq | hgt
      · have := slot_before cfg.sizeof_tx_desc j i hlt
        omega
      · subst heq
        omega
      · have := slot_before cfg.sizeof_tx_desc i j hgt
        omega

/-- Witness of `descriptor_ownership_after_init`: the quiet simulated device,
memory filled with `0xAA` before the run. -/
theorem descriptor_ownership_after_init_witness :
    ∃ w1, eth_q_init quark 10 sim_dentry (sim_world quiet_dev) = some (quark.OK, w1) ∧
      ((∀ i, i < w1.eth.rxRingSize →
        mem_load w1.mem (field_addr w1.eth.rxRing quark.sizeof_rx_desc i quark.rx_status)
          quark.rx_status.width = quark.ETH_QUARK_RDST_OWN) ∧
      (∀ (f : Field), f.off + f.width ≤ quark.sizeof_tx_desc → f.Disjoint quark.tx_buffer1 →
        ∀ i, i < w1.eth.txRingSize →
          mem_load w1.mem (field_addr w1.eth.txRing quark.sizeof_tx_desc i f) f.width = 0)) := by
  obtain ⟨w1, h⟩ := quiet_run_ok
  exact ⟨w1, h, descriptor_ownership_after_init quark 10 sim_dentry (sim_world quiet_dev) w1
    (by decide) quark_tx_layout quark_rx_layout (by decide) (by decide)
    (sim_alloc_ok quiet_dev) h⟩

/-- C9.  Whenever `eth_q_init` returns `OK` (in particular for rings of 128
descriptors and buffers of 2048 bytes): the value last written to `rdla` is
the receive ring start and the value last written to `tdla` is the transmit
ring start, each being the address returned by the allocator rounded by
`(addr + 3) & ~3`, hence a multiple of 4 that is `≥ addr` and `< addr + 4`; the
value last written to `ier` is exactly
`ETH_QUARK_IER_NIE | ETH_QUARK_IER_TIE | ETH_QUARK_IER_RIE`; and the value last
written to `maccr` has `ETH_QUARK_MACCR_TE` and `ETH_QUARK_MACCR_RE` set. -/
theorem registers_after_init (cfg : Cfg) (fuel : Nat) (dp : Dentry) (w w1 : World)
    (hne : cfg.OK ≠ cfg.SYSERR) (ht : TxLayout cfg) (hr : RxLayout cfg)
    (ha : AllocOK cfg w) (h : eth_q_init cfg fuel dp w = some (cfg.OK, w1)) :
    (last_write .rdla w1.dev.trace = some w1.eth.rxRing ∧
      w1.eth.rxRing = align4 (w.alloc 2) ∧ 4 ∣ w1.eth.rxRing ∧
      w.alloc 2 ≤ w1.eth.rxRing ∧ w1.eth.rxRing < w.alloc 2 + 4) ∧
    (last_write .tdla w1.dev.trace = some w1.eth.txRing ∧
      w1.eth.txRing = align4 (w.alloc 0) ∧ 4 ∣ w1.eth.txRing ∧
      w.alloc 0 ≤ w1.eth.txRing ∧ w1.eth.txRing < w.alloc 0 + 4) ∧
    last_write .ier w1.dev.trace = some
      (cfg.ETH_QUARK_IER_NIE ||| cfg.ETH_QUARK_IER_TIE ||| cfg.ETH_QUARK_IER_RIE) ∧
    ∃ v, last_write .maccr w1.dev.trace = some v ∧
      v &&& cfg.ETH_QUARK_MACCR_TE = cfg.ETH_QUARK_MACCR_TE ∧
      v &&& cfg.ETH_QUARK_MACCR_RE = cfg.ETH_QUARK_MACCR_RE := by
  obtain ⟨w0, h0, e1, e2, e3, -, -⟩ := eth_q_init_ok_rings cfg fuel dp w w1 hne h
  have ea : ∀ k, w0.alloc k = w.alloc k := by
    intro k; simp [World.alloc, e2, e3]
  obtain ⟨-, -, -, -, -, q3, -, q5, -, -, -, mac, o1, o2, htr, -⟩ :=
    init_rings_ok cfg dp w0 w1 hne h0
  rw [ea] at q3 q5
  obtain ⟨g1, g2, g3, g4, -⟩ := ha.tx_geom ht
  obtain ⟨k1, k2, k3, k4, -⟩ := ha.rx_geom hr
  have u1 : u32 (align4 (w.alloc 2)) = align4 (w.alloc 2) := Nat.mod_eq_of_lt k4
  have u2 : u32 (align4 (w.alloc 0)) = align4 (w.alloc 0) := Nat.mod_eq_of_lt g4
  rw [htr, q3, q5]
  refine ⟨⟨?_, rfl, k3, k1, by omega⟩, ⟨?_, rfl, g3, g1, by omega⟩, ?_, ?_⟩
  · simp [start_events, last_write, ea, u1]
  · simp [start_events, last_write, ea, u2]
  · simp [start_events, last_write]
  · exact ⟨o1 ||| (cfg.ETH_QUARK_MACCR_TE ||| cfg.ETH_QUARK_MACCR_RE),
      by simp [start_events, last_write], or_or_and_left _ _ _, or_or_and_right _ _ _⟩

/-- Witness of `registers_after_init`: the quiet simulated device with rings
of 128 descriptors and buffers of 2048 bytes. -/
theorem registers_after_init_witness :
    quark.ETH_QUARK_TX_RING_SIZE = 128 ∧ quark.ETH_QUARK_RX_RING_SIZE = 128 ∧
    quark.sizeof_netpacket = 2048 ∧
    ∃ w1, eth_q_init quark 10 sim_dentry (sim_world quiet_dev) = some (quark.OK, w1) ∧
      ((last_write .rdla w1.dev.trace = some w1.eth.rxRing ∧
        w1.eth.rxRing = align4 ((sim_world quiet_dev).alloc 2) ∧ 4 ∣ w1.eth.rxRing ∧
        (sim_world quiet_dev).alloc 2 ≤ w1.eth.rxRing ∧
        w1.eth.rxRing < (sim_world quiet_dev).alloc 2 + 4) ∧
      (last_write .tdla w1.dev.trace = some w1.eth.txRing ∧
        w1.eth.txRing = align4 ((sim_world quiet_dev).alloc 0) ∧ 4 ∣ w1.eth.txRing ∧
        (sim_world quiet_dev).alloc 0 ≤ w1.eth.txRing ∧
        w1.eth.txRing < (sim_world quiet_dev).alloc 0 + 4) ∧
      last_write .ier w1.dev.trace = some
        (quark.ETH_QUARK_IER_NIE ||| quark.ETH_QUARK_IER_TIE ||| quark.ETH_QUARK_IER_RIE) ∧
      ∃ v, last_write .maccr w1.dev.trace = some v ∧
        v &&& quark.ETH_QUARK_MACCR_TE = quark.ETH_QUARK_MACCR_TE ∧
        v &&& quark.ETH_QUARK_MACCR_RE = quark.ETH_QUARK_MACCR_RE) := by
  obtain ⟨w1, h⟩ := quiet_run_ok
  exact ⟨rfl, rfl, rfl, w1, h, registers_after_init quark 10 sim_dentry (sim_world quiet_dev) w1
    (by decide) quark_tx_layout quark_rx_layout (sim_alloc_ok quiet_dev) h⟩

/-- C10.  When every indirect access times out (the busy flag reads clear
before each request and set for `ETH_QUARK_MAX_RETRIES + 1` polls after it),
`eth_q_phy_reset` returns `OK` and prints the link-up message: it issues four
requests only (read of register 0, write of register 0, one read of register 0
by the reset loop, one read of register 1), and never reads `gmiidr`, so no
bit of any PHY register was ever observed. -/
theorem phy_reset_ok_when_accesses_time_out (cfg : Cfg) (fuel : Nat) (d : Dev)
    (hfuel : cfg.ETH_QUARK_MAX_RETRIES < fuel) (hdead : AllTimeOut cfg d) :
    ∃ d1 new,
      eth_q_phy_reset cfg fuel d = some (cfg.OK, d1) ∧
      d1.trace = Event.kprintf .linkUp :: (new ++ d.trace) ∧
      requests new = [read_request cfg 1, read_request cfg 0, write_request cfg 0,
        read_request cfg 0] ∧
      (∀ v, Event.rd .gmiidr v ∉ new) ∧
      d1.pos .gmiidr = d.pos .gmiidr := by
  have hf0 : 0 < fuel := by omega
  obtain ⟨a0, b0⟩ := hdead.access cfg d 0 (by omega)
  obtain ⟨a1, b1⟩ := hdead.access cfg d 1 (by omega)
  obtain ⟨a2, b2⟩ := hdead.access cfg d 2 (by omega)
  obtain ⟨a3, b3⟩ := hdead.access cfg d 3 (by omega)
  -- the four accesses
  have r1 : eth_q_phy_read cfg fuel d 0 = some (0, read_timed_out cfg 0 d) :=
    phy_read_timeout cfg fuel 0 0 d hf0 hfuel (fun n hn => by omega) (by simpa using a0)
      (fun n hn => by simpa using b0 n hn)
  have r2 : eth_q_phy_write cfg fuel (read_timed_out cfg 0 d) 0 (0 ||| 0x8000)
      = some (write_timed_out cfg 0 (0 ||| 0x8000) (read_timed_out cfg 0 d)) :=
    phy_write_timeout cfg fuel 0 0 _ _ hf0 hfuel (fun n hn => by omega)
      (by simpa [read_timed_out_inp, read_timed_out_pos] using a1)
      (fun n hn => by simpa [read_timed_out_inp, read_timed_out_pos] using b1 n hn)
  have r3 : eth_q_phy_read cfg fuel
      (write_timed_out cfg 0 (0 ||| 0x8000) (read_timed_out cfg 0 d)) 0
      = some (0, read_timed_out cfg 0
          (write_timed_out cfg 0 (0 ||| 0x8000) (read_timed_out cfg 0 d))) :=
    phy_read_timeout cfg fuel 0 0 _ hf0 hfuel (fun n hn => by omega)
      (by
        have := a2
        simp only [write_timed_out_inp, write_timed_out_pos, read_timed_out_inp,
          read_timed_out_pos, Nat.add_zero]
        rw [Nat.add_assoc, ← Nat.two_mul]
        exact this)
      (fun n hn => by
        have := b2 n hn
        simp only [write_timed_out_inp, write_timed_out_pos, read_timed_out_inp,
          read_timed_out_pos, Nat.add_zero]
        rw [Nat.add_assoc (d.pos .gmiiar), ← Nat.two_mul]
        exact this)
  have r4 : eth_q_phy_read cfg fuel (read_timed_out cfg 0
      (write_timed_out cfg 0 (0 ||| 0x8000) (read_timed_out cfg 0 d))) 1
      = some (0, read_timed_out cfg 1 (read_timed_out cfg 0
          (write_timed_out cfg 0 (0 ||| 0x8000) (read_timed_out cfg 0 d)))) :=
    phy_read_timeout cfg fuel 0 1 _ hf0 hfuel (fun n hn => by omega)
      (by
        have := a3
        simp only [write_timed_out_inp, write_timed_out_pos, read_timed_out_inp,
          read_timed_out_pos, Nat.add_zero]
        rw [show d.pos .gmiiar + (cfg.ETH_QUARK_MAX_RETRIES + 2) + (cfg.ETH_QUARK_MAX_RETRIES + 2)
          + (cfg.ETH_QUARK_MAX_RETRIES + 2) = d.pos .gmiiar + 3 * (cfg.ETH_QUARK_MAX_RETRIES + 2)
          by omega]
        exact this)
      (fun n hn => by
        have := b3 n hn
        simp only [write_timed_out_inp, write_timed_out_pos, read_timed_out_inp,
          read_timed_out_pos, Nat.add_zero]
        rw [show d.pos .gmiiar + (cfg.ETH_QUARK_MAX_RETRIES + 2) + (cfg.ETH_QUARK_MAX_RETRIES + 2)
          + (cfg.ETH_QUARK_MAX_RETRIES + 2) = d.pos .gmiiar + 3 * (cfg.ETH_QUARK_MAX_RETRIES + 2)
          by omega]
        exact this)
  obtain ⟨n, rfl⟩ : ∃ n, fuel = n + 1 := ⟨fuel - 1, by omega⟩
  obtain ⟨n1, t1, q1, g1⟩ := read_timed_out_new cfg 0 d
  obtain ⟨n2, t2, q2, g2⟩ := write_timed_out_new cfg 0 (0 ||| 0x8000) (read_timed_out cfg 0 d)
  obtain ⟨n3, t3, q3, g3⟩ := read_timed_out_new cfg 0
    (write_timed_out cfg 0 (0 ||| 0x8000) (read_timed_out cfg 0 d))
  obtain ⟨n4, t4, q4, g4⟩ := read_timed_out_new cfg 1 (read_timed_out cfg 0
    (write_timed_out cfg 0 (0 ||| 0x8000) (read_timed_out cfg 0 d)))
  refine ⟨(read_timed_out cfg 1 (read_timed_out cfg 0
    (write_timed_out cfg 0 (0 ||| 0x8000) (read_timed_out cfg 0 d)))).log (.kprintf .linkUp),
    n4 ++ n3 ++ n2 ++ n1, ?_, ?_, ?_, ?_, ?_⟩
  · unfold eth_q_phy_reset phy_reset_request
    simp only [r1, r2]
    rw [phy_reset_wait]
    simp only [r3]
    simp only [Nat.zero_and, ne_eq, not_true_eq_false, if_false]
    unfold phy_link_up
    simp only [r4, Nat.zero_and, ne_eq, not_true_eq_false, if_false]
  · rw [Dev.log_trace, t4, t3, t2, t1]
    simp
  · simp [requests_append, q1, q2, q3, q4]
  · intro v hv
    simp only [List.mem_append] at hv
    rcases hv with ((h | h) | h) | h
    · exact g4 v h
    · exact g3 v h
    · exact g2 v h
    · exact g1 v h
  · simp [read_timed_out_pos_other, write_timed_out_pos_other]

/-- Witness of `phy_reset_ok_when_accesses_time_out`: with three retries, a
device whose busy flag is clear at every fifth poll only. -/
theorem phy_reset_ok_when_accesses_time_out_witness :
    AllTimeOut quark dead_mii_dev ∧
    ∃ d1 new,
      eth_q_phy_reset quark 10 dead_mii_dev = some (quark.OK, d1) ∧
      d1.trace = Event.kprintf .linkUp :: (new ++ dead_mii_dev.trace) ∧
      requests new = [read_request quark 1, read_request quark 0, write_request quark 0,
        read_request quark 0] ∧
      (∀ v, Event.rd .gmiidr v ∉ new) ∧
      d1.pos .gmiidr = dead_mii_dev.pos .gmiidr := by
  have hdead : AllTimeOut quark dead_mii_dev := by
    intro n hn
    simp only [dead_mii_dev, sim_dev, quark, Nat.zero_add]
    by_cases h : n % 5 = 0 <;> simp [h]
  exact ⟨hdead, phy_reset_ok_when_accesses_time_out quark 10 dead_mii_dev (by decide) hdead⟩

end XinuEth
